import Mathlib

/-!
Shallow embedding of the Planora timetable scheduler
(`src/sheduler.py`, class `ImprovedTimetableScheduler`) and of the
hill-climbing demo (`src/hillclimb.py`), together with proofs settling the
frozen claims about the natural-language specification.

Modelling conventions:

* Teachers, subjects and classrooms are strings; days and periods are
  naturals, exactly as the Python code indexes its grids.
* The mutable object state (`self.teacher_schedule`, `self.timetables`,
  `self.subject_counts`, `self.teacher_daily_load`) becomes an explicit
  `State` record of total functions; every Python method that mutates
  `self` becomes a function returning the new `State`.
* Python's `random.random()` stream is modelled as an explicit oracle
  `ρ : Nat → Nat`, the i-th draw being `ρ i / RSCALE` as an exact rational
  (a fixed-point rational in `[0,1)` when `ρ i < RSCALE`).  Every sort key
  `score + random()*c` is multiplied through by the positive constant
  `RSCALE`, which preserves all comparisons exactly, so the keys are the
  integers `RSCALE*score + c*ρ i`.  Each function that draws randomness
  takes the oracle `ρ` and a cursor `k` and returns the advanced cursor,
  mirroring the sequential consumption of the global `random` generator.
  `list.sort(key=..., reverse=True)` computes its keys once per element in
  list order and is a stable sort; it is modelled by decorating with the
  perturbed keys (one draw per element, in list order) and `mergeSort`.
  `random.shuffle` is modelled as "decorate each element with one draw and
  sort by it": a permutation selected by the random source.
* Python integer counters are modelled as `Int` (they are decremented by
  rollback code), and float comparisons of exact fractions
  (`assigned/required < 0.5`, `current_load < sum/days`) are modelled by
  the equivalent cross-multiplied integer comparisons.
-/

namespace Planora

/-- Construction-time configuration of `ImprovedTimetableScheduler.__init__`:
teacher/subject/classroom identifiers, the grid dimensions, the per-subject
weekly quotas, and the constraint parameters. -/
structure Config where
  teachers : List String
  subjects : List String
  classrooms : List String
  days : Nat
  periods_per_day : Nat
  subject_periods : String → Nat
  max_daily_load : Nat
  allow_adjacent : Bool
  max_consecutive : Nat

/-- The concrete configuration hard-coded in `__init__`. -/
def defaultConfig : Config where
  teachers := ["T1", "T2", "T3", "T4", "T5", "T6"]
  subjects := ["S1", "S2", "S3", "S4", "S5", "S6"]
  classrooms := ["Class_A", "Class_B", "Class_C"]
  days := 5
  periods_per_day := 6
  subject_periods := fun sub =>
    if sub = "S1" then 5 else if sub = "S2" then 4 else if sub = "S3" then 7
    else if sub = "S4" then 6 else if sub = "S5" then 4 else if sub = "S6" then 4 else 0
  max_daily_load := 4
  allow_adjacent := true
  max_consecutive := 2

/-- The mutable scheduler state: `teacher_schedule[t][d][p]` (occupied
classroom, if any), `timetables[c][d][p]` (assigned `(teacher, subject)`,
if any), `subject_counts[c][s]` and `teacher_daily_load[t][d]`. -/
@[ext]
structure State where
  teacher_schedule : String → Nat → Nat → Option String
  timetables : String → Nat → Nat → Option (String × String)
  subject_counts : String → String → Int
  teacher_daily_load : String → Nat → Int

/-- Pointwise update of a doubly-indexed grid at one key pair. -/
def upd2 {κ₁ κ₂ α : Type} [DecidableEq κ₁] [DecidableEq κ₂]
    (f : κ₁ → κ₂ → α) (x : κ₁) (y : κ₂) (v : α) : κ₁ → κ₂ → α :=
  fun x' y' => if x' = x ∧ y' = y then v else f x' y'

/-- Pointwise update of a triply-indexed grid at one key triple. -/
def upd3 {κ₁ κ₂ κ₃ α : Type} [DecidableEq κ₁] [DecidableEq κ₂] [DecidableEq κ₃]
    (f : κ₁ → κ₂ → κ₃ → α) (x : κ₁) (y : κ₂) (z : κ₃) (v : α) : κ₁ → κ₂ → κ₃ → α :=
  fun x' y' z' => if x' = x ∧ y' = y ∧ z' = z then v else f x' y' z'

/-- Embeds `reset_data_structures`: all grids empty, all counters zero. -/
def reset_data_structures (_cfg : Config) : State where
  teacher_schedule := fun _ _ _ => none
  timetables := fun _ _ _ => none
  subject_counts := fun _ _ => 0
  teacher_daily_load := fun _ _ => 0

/-- Fixed-point scale of the random oracle: draw `i` denotes the exact
rational `ρ i / RSCALE`. -/
def RSCALE : Nat := 1000000

/-- The random oracle: the scaled stream of `random.random()` draws. -/
abbrev Rand := Nat → Nat

/-- Length of the contiguous run of occupied periods immediately below
period `p` (the backward-counting loop of `count_consecutive_periods`). -/
def countBack (s : State) (t : String) (d : Nat) : Nat → Nat
  | 0 => 0
  | p + 1 => if (s.teacher_schedule t d p).isSome then countBack s t d p + 1 else 0

/-- Forward-counting loop: number of contiguous occupied periods starting
at `p`, examining at most `fuel` periods. -/
def countFwdAux (occ : Nat → Bool) : Nat → Nat → Nat
  | _, 0 => 0
  | p, fuel + 1 => if occ p then countFwdAux occ (p + 1) fuel + 1 else 0

/-- Embeds `count_consecutive_periods`: the candidate period itself plus the
contiguous occupied periods scanning backward and forward on that day. -/
def count_consecutive_periods (cfg : Config) (s : State) (t : String) (d p : Nat) : Nat :=
  1 + countBack s t d p
    + countFwdAux (fun q => (s.teacher_schedule t d q).isSome) (p + 1)
        (cfg.periods_per_day - (p + 1))

/-- Embeds `is_teacher_available`: slot free for the teacher, daily load
below the cap, and the adjacency/consecutive constraint of the configured
mode. -/
def is_teacher_available (cfg : Config) (s : State) (t : String) (d p : Nat) : Bool :=
  if (s.teacher_schedule t d p).isSome then false
  else if (cfg.max_daily_load : Int) ≤ s.teacher_daily_load t d then false
  else if ¬ cfg.allow_adjacent then
    if 0 < p ∧ (s.teacher_schedule t d (p - 1)).isSome then false
    else if p < cfg.periods_per_day - 1 ∧ (s.teacher_schedule t d (p + 1)).isSome then false
    else true
  else if cfg.max_consecutive < count_consecutive_periods cfg s t d p then false
  else true

/-- Sum of a teacher's daily loads over the week (numerator of the
`avg_load` float in `get_teacher_preference_score`). -/
def teacherTotalLoad (cfg : Config) (s : State) (t : String) : Int :=
  ((List.range cfg.days).map (fun d => s.teacher_daily_load t d)).sum

/-- Embeds `get_teacher_preference_score`; the float comparison
`current_load < avg_load` is the integer comparison
`current_load * days < sum_of_loads`. -/
def get_teacher_preference_score (cfg : Config) (s : State) (t : String) (d p : Nat) : Int :=
  (if s.teacher_daily_load t d * (cfg.days : Int) < teacherTotalLoad cfg s t then 10 else 0)
  + (if 1 ≤ p ∧ p ≤ 4 then 5 else 0)
  + (if ((0 < p ∧ (s.teacher_schedule t d (p - 1)).isSome)
        ∨ (p < cfg.periods_per_day - 1 ∧ (s.teacher_schedule t d (p + 1)).isSome))
        ∧ cfg.allow_adjacent then 2 else 0)

/-- Decorates each list element with its scaled perturbed sort key
`RSCALE*key + c*draw`, one draw per element in list order (CPython computes
`key=` once per element, in order). -/
def decorateKeys {α : Type} (key : α → Int) (c : Nat) (ρ : Rand) (k : Nat)
    (l : List α) : List (α × Int) :=
  l.enum.map (fun ia => (ia.2, (RSCALE : Int) * key ia.2 + (c : Int) * (ρ (k + ia.1) : Int)))

/-- Stable descending sort by the perturbed key `score + random()*c`
(`list.sort(key=lambda x: score(x) + random.random()*c, reverse=True)`);
returns the sorted list and the advanced oracle cursor. -/
def sortDescPerturbed {α : Type} (key : α → Int) (c : Nat) (ρ : Rand) (k : Nat)
    (l : List α) : List α × Nat :=
  ((List.insertionSort (fun a b : α × Int => b.2 ≤ a.2) (decorateKeys key c ρ k l)).map
      Prod.fst,
    k + l.length)

/-- Model of `random.shuffle`: decorate each element with one draw and sort
by it, producing a permutation selected by the random source. -/
def shuffleR {α : Type} (ρ : Rand) (k : Nat) (l : List α) : List α × Nat :=
  ((List.insertionSort (fun a b : α × Nat => a.2 ≤ b.2)
      (l.enum.map (fun ia => (ia.2, ρ (k + ia.1))))).map Prod.fst,
    k + l.length)

/-- Embeds `get_available_teachers_ranked`: filter by availability, then
sort descending by preference score perturbed by `random.random()*2`. -/
def get_available_teachers_ranked (cfg : Config) (s : State) (d p : Nat)
    (ρ : Rand) (k : Nat) : List String × Nat :=
  sortDescPerturbed (fun t => get_teacher_preference_score cfg s t d p) 2 ρ k
    (cfg.teachers.filter (fun t => is_teacher_available cfg s t d p))

/-- Embeds `get_subject_priority_score`; the float comparisons of
`completion_rate = assigned/required` against `0.5` and `0.8` are the
integer comparisons `2*assigned < required` and `5*assigned < 4*required`. -/
def get_subject_priority_score (cfg : Config) (s : State) (c sub : String) : Int :=
  let required : Int := (cfg.subject_periods sub : Int)
  let assigned : Int := s.subject_counts c sub
  if required - assigned ≤ 0 then -1
  else (required - assigned) * 10
    + (if 2 * assigned < required then 20
       else if 5 * assigned < 4 * required then 10 else 0)
    + required

/-- Embeds `get_priority_subjects_ranked`: subjects with positive priority
score, sorted descending by score perturbed by `random.random()`. -/
def get_priority_subjects_ranked (cfg : Config) (s : State) (c : String)
    (ρ : Rand) (k : Nat) : List String × Nat :=
  sortDescPerturbed (fun sub => get_subject_priority_score cfg s c sub) 1 ρ k
    (cfg.subjects.filter (fun sub => decide (0 < get_subject_priority_score cfg s c sub)))

/-- Embeds `assign_teacher_to_slot`: writes both grids and bumps both
counters in lockstep. -/
def assign_teacher_to_slot (s : State) (t c : String) (d p : Nat) (sub : String) : State where
  teacher_schedule := upd3 s.teacher_schedule t d p (some c)
  timetables := upd3 s.timetables c d p (some (t, sub))
  subject_counts := upd2 s.subject_counts c sub (s.subject_counts c sub + 1)
  teacher_daily_load := upd2 s.teacher_daily_load t d (s.teacher_daily_load t d + 1)

/-- Embeds `remove_teacher_from_slot`: clears both grids and decrements
both counters in lockstep. -/
def remove_teacher_from_slot (s : State) (t c : String) (d p : Nat) (sub : String) : State where
  teacher_schedule := upd3 s.teacher_schedule t d p none
  timetables := upd3 s.timetables c d p none
  subject_counts := upd2 s.subject_counts c sub (s.subject_counts c sub - 1)
  teacher_daily_load := upd2 s.teacher_daily_load t d (s.teacher_daily_load t d - 1)

/-- Embeds `calculate_slot_score`: middle-period and middle-day bonuses
plus twice the number of currently available teachers. -/
def calculate_slot_score (cfg : Config) (s : State) (d p : Nat) : Int :=
  (if 1 ≤ p ∧ p ≤ 4 then 10 else 0) + (if 1 ≤ d ∧ d ≤ 3 then 5 else 0)
  + 2 * ((cfg.teachers.filter (fun t => is_teacher_available cfg s t d p)).length : Int)

/-- Embeds the `valid` computation of `validate_timetables` on the subject
quotas: every configured classroom fulfils every subject's quota exactly. -/
def validateQuotas (cfg : Config) (s : State) : Bool :=
  cfg.classrooms.all (fun c => cfg.subjects.all (fun sub =>
    decide (s.subject_counts c sub = (cfg.subject_periods sub : Int))))

/-- Embeds the daily-load check of `validate_timetables`
(`max(loads) <= max_daily_load`, elementwise). -/
def validateLoads (cfg : Config) (s : State) : Bool :=
  cfg.teachers.all (fun t => (List.range cfg.days).all (fun d =>
    decide (s.teacher_daily_load t d ≤ (cfg.max_daily_load : Int))))

/-- The teachers appearing in some classroom's cell at `(d, p)`, in
classroom order (the `teachers_in_period` list of `validate_timetables`). -/
def teachersInPeriod (cfg : Config) (s : State) (d p : Nat) : List String :=
  cfg.classrooms.filterMap (fun c => (s.timetables c d p).map Prod.fst)

/-- Embeds the conflict check of `validate_timetables`: no `(day, period)`
lists the same teacher in two classrooms. -/
def validateConflicts (cfg : Config) (s : State) : Bool :=
  (List.range cfg.days).all (fun d => (List.range cfg.periods_per_day).all (fun p =>
    decide (teachersInPeriod cfg s d p).Nodup))

/-- The longest run of consecutive `true`s of `occ` on `[0, n)`, computed
by the streak fold of `validate_timetables`. -/
def maxStreakRow (occ : Nat → Bool) (n : Nat) : Nat :=
  ((List.range n).foldl
    (fun cm p => if occ p then (cm.1 + 1, max cm.2 (cm.1 + 1)) else (0, cm.2)) (0, 0)).2

/-- Embeds the consecutive-periods check of `validate_timetables`, which
the source performs only when `allow_adjacent` is set. -/
def validateConsecutive (cfg : Config) (s : State) : Bool :=
  if cfg.allow_adjacent then
    cfg.teachers.all (fun t => (List.range cfg.days).all (fun d =>
      decide (maxStreakRow (fun q => (s.teacher_schedule t d q).isSome)
        cfg.periods_per_day ≤ cfg.max_consecutive)))
  else true

/-- Embeds `validate_timetables` (a pure function of the state; the
printing is dropped): quotas exact, loads within the cap, no slot-level
teacher conflict, and — in adjacent-allowed mode only — no consecutive-run
violation. -/
def validate_timetables (cfg : Config) (s : State) : Bool :=
  validateQuotas cfg s && validateLoads cfg s && validateConflicts cfg s
    && validateConsecutive cfg s

/-- Outcome of the period loop inside `try_relocate_assignment`: either the
relocation committed (overall success), or control moves to the next day
(the loop ran out of periods, or `break` fired after a rollback). -/
inductive RelocStep where
  | success (s : State) (k : Nat)
  | next (s : State) (k : Nat)

/-- The inner `for period in range(...)` loop of `try_relocate_assignment`:
at the first free-and-feasible period, move the displaced assignment there,
re-rank teachers for the freed donor slot, and either commit the target
assignment (returning success) or roll the move back and `break` to the
next day. -/
def relocPeriods (cfg : Config) (ρ : Rand) (t from_c sub target_c target_sub : String)
    (fd fp d : Nat) : List Nat → State → Nat → RelocStep
  | [], s, k => .next s k
  | p :: ps, s, k =>
    if s.timetables from_c d p = none ∧ is_teacher_available cfg s t d p then
      let s2 := assign_teacher_to_slot s t from_c d p sub
      let r := get_available_teachers_ranked cfg s2 fd fp ρ k
      match r.1 with
      | t2 :: _ => .success (assign_teacher_to_slot s2 t2 target_c fd fp target_sub) r.2
      | [] => .next (remove_teacher_from_slot s2 t from_c d p sub) r.2
    else relocPeriods cfg ρ t from_c sub target_c target_sub fd fp d ps s k

/-- The outer `for day in range(...)` loop of `try_relocate_assignment`;
when every day is exhausted, control falls through to the final restore of
the donor assignment and the trial reports failure. -/
def relocDays (cfg : Config) (ρ : Rand) (t from_c sub target_c target_sub : String)
    (fd fp : Nat) : List Nat → State → Nat → Bool × State × Nat
  | [], s, k => (false, assign_teacher_to_slot s t from_c fd fp sub, k)
  | d :: ds, s, k =>
    match relocPeriods cfg ρ t from_c sub target_c target_sub fd fp d
        (List.range cfg.periods_per_day) s k with
    | .success s' k' => (true, s', k')
    | .next s' k' => relocDays cfg ρ t from_c sub target_c target_sub fd fp ds s' k'

/-- Embeds `try_relocate_assignment`: temporarily remove the donor
assignment, check the freed slot is assignable to some teacher and free in
the target classroom, search for a new home for the displaced assignment,
and either commit both moves or restore the donor exactly and fail. -/
def try_relocate_assignment (cfg : Config) (from_c : String) (fd fp : Nat)
    (target_c target_sub : String) (s : State) (ρ : Rand) (k : Nat) : Bool × State × Nat :=
  match s.timetables from_c fd fp with
  | none => (false, s, k)
  | some (t, sub) =>
    let s1 := remove_teacher_from_slot s t from_c fd fp sub
    let r := get_available_teachers_ranked cfg s1 fd fp ρ k
    if (cfg.teachers.any (fun t' => is_teacher_available cfg s1 t' fd fp))
        ∧ s1.timetables target_c fd fp = none then
      relocDays cfg ρ t from_c sub target_c target_sub fd fp (List.range cfg.days) s1 r.2
    else (false, assign_teacher_to_slot s1 t from_c fd fp sub, r.2)

/-- The currently filled `(classroom, day, period)` triples, in the build
order of `resolve_unassigned_with_swapping`'s `swap_candidates`. -/
def filledTriples (cfg : Config) (s : State) : List (String × Nat × Nat) :=
  cfg.classrooms.flatMap (fun c => (List.range cfg.days).flatMap (fun d =>
    (List.range cfg.periods_per_day).filterMap (fun p =>
      if (s.timetables c d p).isSome then some (c, d, p) else none)))

/-- The `for ... in swap_candidates[:20]` loop: try each donor in turn with
`try_relocate_assignment` until one relocation commits. -/
def tryDonors (cfg : Config) (ρ : Rand) (target_c target_sub : String) :
    List (String × Nat × Nat) → State → Nat → Bool × State × Nat
  | [], s, k => (false, s, k)
  | (c, d, p) :: ds, s, k =>
    match try_relocate_assignment cfg c d p target_c target_sub s ρ k with
    | (true, s', k') => (true, s', k')
    | (false, s', k') => tryDonors cfg ρ target_c target_sub ds s' k'

/-- The `for attempt in range(max_swap_attempts)` loop of
`resolve_unassigned_with_swapping` for one unresolved unit: re-enumerate
and shuffle the filled triples, try the first 20 donors, and repeat up to
the attempt bound (breaking out when no filled triple exists). -/
def resolveAttempts (cfg : Config) (ρ : Rand) (c sub : String) :
    Nat → State → Nat → Bool × State × Nat
  | 0, s, k => (false, s, k)
  | n + 1, s, k =>
    let cands := filledTriples cfg s
    if cands = [] then (false, s, k)
    else
      let sh := shuffleR ρ k cands
      match tryDonors cfg ρ c sub (sh.1.take 20) s sh.2 with
      | (true, s', k') => (true, s', k')
      | (false, s', k') => resolveAttempts cfg ρ c sub n s' k'

/-- Embeds `resolve_unassigned_with_swapping`: iterate over a copy of the
unassigned list, and on each successful relocation remove the first
occurrence of the resolved unit from the live list. -/
def resolve_unassigned_with_swapping (cfg : Config) (ρ : Rand) :
    List (String × String) → List (String × String) → State → Nat →
      List (String × String) × State × Nat
  | [], live, s, k => (live, s, k)
  | (c, sub) :: rest, live, s, k =>
    match resolveAttempts cfg ρ c sub 100 s k with
    | (true, s', k') =>
        resolve_unassigned_with_swapping cfg ρ rest (live.erase (c, sub)) s' k'
    | (false, s', k') => resolve_unassigned_with_swapping cfg ρ rest live s' k'

/-- The full demand multiset of `generate_timetable_smart_greedy`: for each
classroom and subject, one `(classroom, subject)` unit per required period. -/
def allRequiredAssignments (cfg : Config) : List (String × String) :=
  cfg.classrooms.flatMap (fun c => cfg.subjects.flatMap (fun sub =>
    List.replicate (cfg.subject_periods sub) (c, sub)))

/-- The processing order of the greedy constructor: the demand units sorted
descending by `subject_priority_score` = `required*10 + random.random()*5`
(the key actually used at line 221 of the source). -/
def greedyOrder (cfg : Config) (ρ : Rand) (k : Nat) : List (String × String) × Nat :=
  sortDescPerturbed (fun cs => 10 * (cfg.subject_periods cs.2 : Int)) 5 ρ k
    (allRequiredAssignments cfg)

/-- The currently empty `(day, period)` cells of a classroom, in the build
order of the greedy constructor's `time_slots` list. -/
def emptySlots (cfg : Config) (s : State) (c : String) : List (Nat × Nat) :=
  (List.range cfg.days).flatMap (fun d => (List.range cfg.periods_per_day).filterMap (fun p =>
    if s.timetables c d p = none then some (d, p) else none))

/-- The `for day, period, _ in time_slots` loop of the greedy constructor:
at the first slot with an available teacher, assign the top-ranked teacher. -/
def tryAssignSlots (cfg : Config) (ρ : Rand) (c sub : String) :
    List (Nat × Nat) → State → Nat → Option State × Nat
  | [], _s, k => (none, k)
  | (d, p) :: rest, s, k =>
    let r := get_available_teachers_ranked cfg s d p ρ k
    match r.1 with
    | t :: _ => (some (assign_teacher_to_slot s t c d p sub), r.2)
    | [] => tryAssignSlots cfg ρ c sub rest s r.2

/-- The unit-processing loop of the greedy constructor: for each demand
unit, rank the classroom's empty slots by perturbed slot score and try
them in order; units with no feasible slot are appended to `unassigned`. -/
def processUnits (cfg : Config) (ρ : Rand) :
    List (String × String) → State → Nat → List (String × String) →
      State × Nat × List (String × String)
  | [], s, k, un => (s, k, un)
  | (c, sub) :: rest, s, k, un =>
    let slots := sortDescPerturbed (fun dp => calculate_slot_score cfg s dp.1 dp.2) 5 ρ k
      (emptySlots cfg s c)
    match tryAssignSlots cfg ρ c sub slots.1 s slots.2 with
    | (some s', k2) => processUnits cfg ρ rest s' k2 un
    | (none, k2) => processUnits cfg ρ rest s k2 (un ++ [(c, sub)])

/-- Embeds `generate_timetable_smart_greedy`: reset, build and sort the
demand units, greedily assign them, repair the leftovers by relocation,
and validate.  Returns the validation verdict (the Python return value)
together with the post-repair unassigned list, the final state, and the
oracle cursor. -/
def generate_timetable_smart_greedy (cfg : Config) (ρ : Rand) (k : Nat) :
    Bool × List (String × String) × State × Nat :=
  let go := greedyOrder cfg ρ k
  let pr := processUnits cfg ρ go.1 (reset_data_structures cfg) go.2 []
  let rp := resolve_unassigned_with_swapping cfg ρ pr.2.2 pr.2.2 pr.1 pr.2.1
  (validate_timetables cfg rp.2.1, rp.1, rp.2.1, rp.2.2)

/-- The nested `for teacher ... for subject ...` loop of `backtrack_solve`,
flattened to the product list in the same iteration order: tentatively
assign, recurse, propagate success, otherwise undo and try the next pair. -/
def tryPairs (cfg : Config) (c : String) (d p : Nat)
    (recurse : State → Nat → Bool × State × Nat) :
    List (String × String) → State → Nat → Bool × State × Nat
  | [], s, k => (false, s, k)
  | (t, sub) :: ps, s, k =>
    match recurse (assign_teacher_to_slot s t c d p sub) k with
    | (true, s2, k2) => (true, s2, k2)
    | (false, s2, k2) =>
        tryPairs cfg c d p recurse ps (remove_teacher_from_slot s2 t c d p sub) k2

/-- Embeds `backtrack_solve`, recursing over the suffix of the slot list:
success past the end; skip the slot when the needed-subjects or available-
teachers ranking is empty; otherwise try every (teacher, subject) pair. -/
def backtrack_solve (cfg : Config) (ρ : Rand) :
    List (String × Nat × Nat) → State → Nat → Bool × State × Nat
  | [], s, k => (true, s, k)
  | (c, d, p) :: rest, s, k =>
    let ns := get_priority_subjects_ranked cfg s c ρ k
    if ns.1 = [] then backtrack_solve cfg ρ rest s ns.2
    else
      let av := get_available_teachers_ranked cfg s d p ρ ns.2
      if av.1 = [] then backtrack_solve cfg ρ rest s av.2
      else
        tryPairs cfg c d p (fun s' k' => backtrack_solve cfg ρ rest s' k')
          (av.1.flatMap (fun t => ns.1.map (fun sub => (t, sub)))) s av.2

/-- The slot list built by `solve_with_backtracking` before shuffling:
day-major, then period, then classroom. -/
def allSlotTriples (cfg : Config) : List (String × Nat × Nat) :=
  (List.range cfg.days).flatMap (fun d => (List.range cfg.periods_per_day).flatMap (fun p =>
    cfg.classrooms.map (fun c => (c, d, p))))

/-- Embeds `solve_with_backtracking`: shuffle all slot triples once and run
the recursive backtracking from index 0 on the current state. -/
def solve_with_backtracking (cfg : Config) (s : State) (ρ : Rand) (k : Nat) :
    Bool × State × Nat :=
  let sh := shuffleR ρ k (allSlotTriples cfg)
  backtrack_solve cfg ρ sh.1 s sh.2

/-- The attempt loop of `generate_timetable_iterative`: up to the given
number of greedy attempts, then reset and fall back to backtracking. -/
def genAttempts (cfg : Config) (ρ : Rand) : Nat → Nat → Bool × State × Nat
  | 0, k => solve_with_backtracking cfg (reset_data_structures cfg) ρ k
  | n + 1, k =>
    let g := generate_timetable_smart_greedy cfg ρ k
    if g.1 then (true, g.2.2.1, g.2.2.2) else genAttempts cfg ρ n g.2.2.2

/-- Embeds `generate_timetable_iterative`: five greedy attempts, then the
backtracking fallback on a freshly reset state; returns the overall
success flag, the final state and the oracle cursor. -/
def generate_timetable_iterative (cfg : Config) (ρ : Rand) (k : Nat) : Bool × State × Nat :=
  genAttempts cfg ρ 5 k

/-- Spec-side reading of the backward scan: the length of the contiguous
occupied stretch immediately below `p`, walking down from `p - 1`. -/
def specBackRun (occ : Nat → Bool) (p : Nat) : Nat :=
  ((List.range p).reverse.takeWhile occ).length

/-- Spec-side reading of the forward scan: the length of the contiguous
occupied stretch immediately above `p`, walking up from `p + 1` to the end
of the day. -/
def specFwdRun (occ : Nat → Bool) (n p : Nat) : Nat :=
  ((List.range' (p + 1) (n - (p + 1))).takeWhile occ).length

/-- Spec-side reading of the consecutive run through a candidate period:
the candidate itself plus the contiguous occupied periods scanning backward
and forward on that day. -/
def specScanRun (cfg : Config) (s : State) (t : String) (d p : Nat) : Nat :=
  1 + specBackRun (fun q => (s.teacher_schedule t d q).isSome) p
    + specFwdRun (fun q => (s.teacher_schedule t d q).isSome) cfg.periods_per_day p

/-- Spec-side validation condition: every classroom's per-subject
fulfillment count equals the subject's quota exactly. -/
def QuotasExact (cfg : Config) (s : State) : Prop :=
  ∀ c ∈ cfg.classrooms, ∀ sub ∈ cfg.subjects,
    s.subject_counts c sub = (cfg.subject_periods sub : Int)

/-- Spec-side validation condition: every teacher's daily load is within
`max_daily_load`. -/
def LoadsWithinCap (cfg : Config) (s : State) : Prop :=
  ∀ t ∈ cfg.teachers, ∀ d < cfg.days, s.teacher_daily_load t d ≤ (cfg.max_daily_load : Int)

/-- Spec-side validation condition: no `(day, period)` has the same teacher
in the assignments of two classrooms. -/
def NoSlotConflict (cfg : Config) (s : State) : Prop :=
  ∀ d < cfg.days, ∀ p < cfg.periods_per_day, (teachersInPeriod cfg s d p).Nodup

/-- Spec-side validation condition: no teacher's maximal run of consecutive
occupied periods within a day exceeds `max_consecutive`. -/
def NoConsecutiveViolation (cfg : Config) (s : State) : Prop :=
  ∀ t ∈ cfg.teachers, ∀ d < cfg.days,
    maxStreakRow (fun q => (s.teacher_schedule t d q).isSome) cfg.periods_per_day
      ≤ cfg.max_consecutive

/-- Spec-side strict-mode adjacency condition: no two adjacent periods of a
day are both occupied by the same teacher. -/
def NoAdjacentStrict (cfg : Config) (s : State) : Prop :=
  ∀ t ∈ cfg.teachers, ∀ d < cfg.days, ∀ p, p + 1 < cfg.periods_per_day →
    ¬ ((s.teacher_schedule t d p).isSome ∧ (s.teacher_schedule t d (p + 1)).isSome)

/-- The all-zero random oracle (all draws are the exact rational 0). -/
def rhoZero : Rand := fun _ => 0

/-- A minimal feasible configuration: one teacher, one subject of quota 1,
one classroom, a 1-day × 1-period grid. -/
def cfgTiny : Config where
  teachers := ["T"]
  subjects := ["S"]
  classrooms := ["A"]
  days := 1
  periods_per_day := 1
  subject_periods := fun _ => 1
  max_daily_load := 4
  allow_adjacent := true
  max_consecutive := 2

/-- The zero-teacher scenario of the specification: no teachers, one
classroom with one subject of quota 1 on a 1 × 1 grid. -/
def cfgNoTeachers : Config where
  teachers := []
  subjects := ["S"]
  classrooms := ["A"]
  days := 1
  periods_per_day := 1
  subject_periods := fun _ => 1
  max_daily_load := 4
  allow_adjacent := true
  max_consecutive := 2

/-- A strict-adjacency configuration (`allow_adjacent = false`): one
teacher, one subject of quota 2, one classroom, one day of two periods. -/
def cfgStrict : Config where
  teachers := ["T"]
  subjects := ["S"]
  classrooms := ["A"]
  days := 1
  periods_per_day := 2
  subject_periods := fun _ => 2
  max_daily_load := 2
  allow_adjacent := false
  max_consecutive := 2

/-- A state for `cfgStrict` in which teacher `T` occupies the two adjacent
periods of the single day in classroom `A`, with consistent counters. -/
def stateAdjacent : State where
  teacher_schedule := fun t d p => if t = "T" ∧ d = 0 ∧ (p = 0 ∨ p = 1) then some "A" else none
  timetables := fun c d p => if c = "A" ∧ d = 0 ∧ (p = 0 ∨ p = 1) then some ("T", "S") else none
  subject_counts := fun c sub => if c = "A" ∧ sub = "S" then 2 else 0
  teacher_daily_load := fun t d => if t = "T" ∧ d = 0 then 2 else 0


/-- Spec-worded reading of §4.4's inner loop ("for each candidate subject
in ranked order: tentatively assign, recurse; on success propagate, else
undo the tentative assignment"); `recurse` is the transition into
`exploring(i+1)`. -/
def specSubjectLoop (c : String) (d p : Nat) (t : String)
    (recurse : State → Nat → Bool × State × Nat) :
    List String → State → Nat → Bool × State × Nat
  | [], s, k => (false, s, k)
  | sub :: subs, s, k =>
    match recurse (assign_teacher_to_slot s t c d p sub) k with
    | (true, s2, k2) => (true, s2, k2)
    | (false, s2, k2) =>
        specSubjectLoop c d p t recurse subs (remove_teacher_from_slot s2 t c d p sub) k2

/-- Spec-worded reading of §4.4's outer loop ("for each candidate teacher
in ranked order", trying every ranked subject before moving on). -/
def specTeacherLoop (c : String) (d p : Nat) (needed : List String)
    (recurse : State → Nat → Bool × State × Nat) :
    List String → State → Nat → Bool × State × Nat
  | [], s, k => (false, s, k)
  | t :: ts, s, k =>
    match specSubjectLoop c d p t recurse needed s k with
    | (true, s2, k2) => (true, s2, k2)
    | (false, s2, k2) => specTeacherLoop c d p needed recurse ts s2 k2

/-- Spec-worded reading of §4.4's state machine `exploring(i)` over the
once-shuffled slot list: success past the end of the list; when the ranked
needed-subjects list or the ranked available-teachers list is empty,
advance to `exploring(i+1)` leaving the slot unassigned; otherwise run the
nested teacher/subject loops, and fail exactly when every pair is
exhausted without success. -/
def specExploring (cfg : Config) (ρ : Rand) (slots : List (String × Nat × Nat)) :
    Nat → State → Nat → Bool × State × Nat := fun i s k =>
  if h : i < slots.length then
    match slots.get ⟨i, h⟩ with
    | (c, d, p) =>
      let ns := get_priority_subjects_ranked cfg s c ρ k
      if ns.1 = [] then specExploring cfg ρ slots (i + 1) s ns.2
      else
        let av := get_available_teachers_ranked cfg s d p ρ ns.2
        if av.1 = [] then specExploring cfg ρ slots (i + 1) s av.2
        else
          specTeacherLoop c d p ns.1 (fun s' k' => specExploring cfg ρ slots (i + 1) s' k')
            av.1 s av.2
  else (true, s, k)
termination_by i => slots.length - i
decreasing_by all_goals omega


/-- Grid consistency: every classroom cell naming a teacher is mirrored in
that teacher's occupancy grid (the lockstep discipline of
`assign_teacher_to_slot` / `remove_teacher_from_slot`). -/
def W1 (s : State) : Prop :=
  ∀ c d p t sub, s.timetables c d p = some (t, sub) → s.teacher_schedule t d p = some c

/-- Teacher occupancy lives inside the period grid: nothing is recorded at
or beyond `periods_per_day`. -/
def RowRange (cfg : Config) (s : State) : Prop :=
  ∀ t d p, cfg.periods_per_day ≤ p → s.teacher_schedule t d p = none

/-- Invariant 1 of the data model: no teacher appears in the assignments of
two distinct classrooms at the same `(day, period)`. -/
def Inv1 (s : State) : Prop :=
  ∀ c1 c2 d p t s1 s2, s.timetables c1 d p = some (t, s1) →
    s.timetables c2 d p = some (t, s2) → c1 = c2

/-- Invariant 2 of the data model: every teacher's daily load counter is at
most `max_daily_load`. -/
def Inv2 (cfg : Config) (s : State) : Prop :=
  ∀ t d, s.teacher_daily_load t d ≤ (cfg.max_daily_load : Int)

/-- Occupancy rows have no run of more than `m` consecutive `true`s: every
window of `m + 1` periods contains a gap. -/
def NoRun (occ : Nat → Bool) (m : Nat) : Prop :=
  ∀ start, ∃ j, j ≤ m ∧ occ (start + j) = false

/-- Maximal-run bound restricted to the day's periods `[0, n)`: every
in-range window of `m + 1` periods contains a gap (equivalently, the
longest run of consecutive occupied periods within the day is `≤ m`). -/
def MaxRunWithinLe (occ : Nat → Bool) (n m : Nat) : Prop :=
  ∀ start, start + m < n → ∃ j, j ≤ m ∧ occ (start + j) = false

/-- Invariant 3 of the data model in the form maintained inductively:
in adjacent-allowed mode no teacher's row has a run longer than
`max_consecutive` anywhere; in strict mode no two adjacent periods of a
row are both occupied. -/
def Inv3 (cfg : Config) (s : State) : Prop :=
  if cfg.allow_adjacent then
    ∀ t d, NoRun (fun q => (s.teacher_schedule t d q).isSome) cfg.max_consecutive
  else
    ∀ t d p, ¬ ((s.teacher_schedule t d p).isSome = true
      ∧ (s.teacher_schedule t d (p + 1)).isSome = true)

/-- Invariant 4 of the data model: no configured classroom's fulfillment
count for a configured subject exceeds that subject's quota. -/
def Inv4 (cfg : Config) (s : State) : Prop :=
  ∀ c ∈ cfg.classrooms, ∀ sub ∈ cfg.subjects,
    s.subject_counts c sub ≤ (cfg.subject_periods sub : Int)

/-- The inductive well-formedness carried through every scheduler phase:
grid consistency, in-range occupancy, the load cap, and the mode-dependent
consecutiveness invariant. -/
def Wf (cfg : Config) (s : State) : Prop :=
  W1 s ∧ RowRange cfg s ∧ Inv2 cfg s ∧ Inv3 cfg s

/-- The four invariants of the data model exactly as the specification
states them (the consecutive bound read as "maximal run within the day"). -/
def ClaimedInvariants (cfg : Config) (s : State) : Prop :=
  Inv1 s ∧ Inv2 cfg s
  ∧ (if cfg.allow_adjacent then
      ∀ t d, MaxRunWithinLe (fun q => (s.teacher_schedule t d q).isSome)
        cfg.periods_per_day cfg.max_consecutive
    else
      ∀ t d p, ¬ ((s.teacher_schedule t d p).isSome = true
        ∧ (s.teacher_schedule t d (p + 1)).isSome = true))
  ∧ Inv4 cfg s

end Planora

namespace Hillclimb

/-- Index in `[0, n)` selected by one scaled draw (`random.randrange`-style
selection used to model `random.choice` and `random.randint(0, n-1)`). -/
def natOfRand (r n : Nat) : Nat := min (r * n / Planora.RSCALE) (n - 1)

/-- Model of `random.choice` over a list of teacher names. -/
def choice (l : List String) (r : Nat) : String := l.getD (natOfRand r l.length) ""

/-- Embeds `propose_random_timetable`: a fresh `days × periods` grid with a
uniformly chosen teacher in every cell (one draw per cell, row-major). -/
def propose_random_timetable (teachers : List String) (days periods : Nat)
    (ρ : Planora.Rand) (k : Nat) : List (List String) × Nat :=
  ((List.range days).map (fun d => (List.range periods).map (fun p =>
      choice teachers (ρ (k + d * periods + p)))),
    k + days * periods)

/-- The cell `timetable[day][period]` (out-of-range reads give `""`; the
source would raise, and is only called in range). -/
def cellOf (tt : List (List String)) (d p : Nat) : String := (tt.getD d []).getD p ""

/-- Duplicate-teacher penalty of one day of `evaluate_cost`: 1000 for
each period whose teacher already appeared earlier in the same day. -/
def dayDupCost (cells : List String) : Int :=
  (cells.foldl
    (fun acc t => if t ∈ acc.2 then (acc.1 + 1000, acc.2) else (acc.1, t :: acc.2))
    ((0 : Int), ([] : List String))).1

/-- All cells of the grid read row-major (for the `teacher_load` counts). -/
def allCells (tt : List (List String)) (days periods : Nat) : List String :=
  (List.range days).flatMap (fun d => (List.range periods).map (fun p => cellOf tt d p))

/-- Embeds `evaluate_cost`: per-day duplicate penalties, a flat 10 per day
for the last period, and 500 per teacher whose total load leaves the band
`expected_load ± 2` (with `expected_load = days*periods // len(teachers)`). -/
def evaluate_cost (tt : List (List String)) (teachers : List String)
    (days periods : Nat) : Int :=
  ((List.range days).map (fun d =>
      dayDupCost ((List.range periods).map (fun p => cellOf tt d p)))).sum
  + (if 0 < periods then 10 * (days : Int) else 0)
  + (teachers.map (fun t =>
      if (allCells tt days periods).count t > (days * periods) / teachers.length + 2
        ∨ (allCells tt days periods).count t < (days * periods) / teachers.length - 2
      then (500 : Int) else 0)).sum

/-- Embeds `mutate_timetable`: replace one uniformly chosen cell by a
uniformly chosen teacher (three draws). -/
def mutate_timetable (tt : List (List String)) (teachers : List String)
    (ρ : Planora.Rand) (k : Nat) : List (List String) × Nat :=
  let d := natOfRand (ρ k) tt.length
  let p := natOfRand (ρ (k + 1)) (tt.getD 0 []).length
  (tt.set d ((tt.getD d []).set p (choice teachers (ρ (k + 2)))), k + 3)

/-- The iteration loop of `hill_climb_timetable`: mutate, accept strictly
better cost, and stop early once the accepted cost reaches 0. -/
def hillClimbLoop (teachers : List String) (days periods : Nat) (ρ : Planora.Rand) :
    Nat → List (List String) → Int → Nat → List (List String) × Int × Nat
  | 0, tt, cost, k => (tt, cost, k)
  | n + 1, tt, cost, k =>
    let m := mutate_timetable tt teachers ρ k
    let newCost := evaluate_cost m.1 teachers days periods
    let acc := if newCost < cost then (m.1, newCost) else (tt, cost)
    if acc.2 = 0 then (acc.1, acc.2, m.2)
    else hillClimbLoop teachers days periods ρ n acc.1 acc.2 m.2

/-- Embeds `hill_climb_timetable`: start from a random proposal and run the
mutation loop, returning the final `(timetable, cost)` pair (plus cursor). -/
def hill_climb_timetable (teachers : List String) (days periods max_iterations : Nat)
    (ρ : Planora.Rand) (k : Nat) : List (List String) × Int × Nat :=
  let pr := propose_random_timetable teachers days periods ρ k
  hillClimbLoop teachers days periods ρ max_iterations pr.1
    (evaluate_cost pr.1 teachers days periods) pr.2

end Hillclimb

open Planora

theorem countBack_eq_spec (s : State) (t : String) (d : Nat) :
    ∀ p, countBack s t d p = specBackRun (fun q => (s.teacher_schedule t d q).isSome) p := by
  intro p
  induction p with
  | zero => simp [countBack, specBackRun]
  | succ p ih =>
      have hrev : (List.range (p + 1)).reverse = p :: (List.range p).reverse := by
        rw [List.range_succ, List.reverse_append]
        simp
      simp only [countBack, specBackRun, hrev, List.takeWhile_cons]
      by_cases h : (s.teacher_schedule t d p).isSome
      · simp [h, ih, specBackRun]
      · simp [h]

theorem countFwdAux_eq_takeWhile (occ : Nat → Bool) :
    ∀ fuel p, countFwdAux occ p fuel = ((List.range' p fuel).takeWhile occ).length := by
  intro fuel
  induction fuel with
  | zero => intro p; simp [countFwdAux]
  | succ fuel ih =>
      intro p
      rw [List.range'_succ]
      simp only [countFwdAux, List.takeWhile_cons]
      by_cases h : occ p
      · simp [h, ih]
      · simp [h]

theorem count_consecutive_eq_spec (cfg : Config) (s : State) (t : String) (d p : Nat) :
    count_consecutive_periods cfg s t d p = specScanRun cfg s t d p := by
  simp only [count_consecutive_periods, specScanRun, specFwdRun,
    countBack_eq_spec, countFwdAux_eq_takeWhile]
/-- C4: `is_teacher_available` returns `False` when the teacher already
occupies the slot in some classroom, when the daily load has reached
`max_daily_load`, when (in adjacent-allowed mode) the consecutive run
through the candidate period — scanning backward and forward through
contiguous occupied periods — exceeds `max_consecutive`, or when (in strict
mode) a neighboring period is already occupied; and `True` otherwise. -/
theorem is_teacher_available_characterization (cfg : Config) (s : State) (t : String)
    (d p : Nat) (hd : d < cfg.days) (hp : p < cfg.periods_per_day) :
    is_teacher_available cfg s t d p = true ↔
      (s.teacher_schedule t d p = none
        ∧ s.teacher_daily_load t d < (cfg.max_daily_load : Int)
        ∧ (if cfg.allow_adjacent then
            specScanRun cfg s t d p ≤ cfg.max_consecutive
          else
            (∀ q, q + 1 = p → s.teacher_schedule t d q = none)
            ∧ (∀ q, q = p + 1 → q < cfg.periods_per_day →
                s.teacher_schedule t d q = none))) := by
  have hrun := count_consecutive_eq_spec cfg s t d p
  unfold is_teacher_available
  by_cases h1 : (s.teacher_schedule t d p).isSome
  · rw [if_pos h1]
    refine iff_of_false (by simp) ?_
    rintro ⟨ha, -, -⟩
    rw [ha] at h1
    simp at h1
  · rw [if_neg h1]
    by_cases h2 : (cfg.max_daily_load : Int) ≤ s.teacher_daily_load t d
    · rw [if_pos h2]
      refine iff_of_false (by simp) ?_
      rintro ⟨-, hb, -⟩
      omega
    · rw [if_neg h2]
      have hfree : s.teacher_schedule t d p = none := Option.not_isSome_iff_eq_none.mp h1
      have hload : s.teacher_daily_load t d < (cfg.max_daily_load : Int) := by omega
      cases hadj : cfg.allow_adjacent
      · rw [if_pos (show ¬ (false = true) by simp), if_neg (show ¬ (false = true) by simp)]
        by_cases h4 : 0 < p ∧ (s.teacher_schedule t d (p - 1)).isSome
        · rw [if_pos h4]
          refine iff_of_false (by simp) ?_
          rintro ⟨-, -, hleft, -⟩
          have := hleft (p - 1) (by omega)
          rw [this] at h4
          simp at h4
        · rw [if_neg h4]
          by_cases h5 : p < cfg.periods_per_day - 1 ∧ (s.teacher_schedule t d (p + 1)).isSome
          · rw [if_pos h5]
            refine iff_of_false (by simp) ?_
            rintro ⟨-, -, -, hright⟩
            have := hright (p + 1) rfl (by omega)
            rw [this] at h5
            simp at h5
          · rw [if_neg h5]
            refine iff_of_true rfl ⟨hfree, hload, ?_, ?_⟩
            · intro q hq
              have hq0 : 0 < p := by omega
              have hns : ¬ (s.teacher_schedule t d (p - 1)).isSome = true :=
                fun hocc => h4 ⟨hq0, hocc⟩
              have hqe : q = p - 1 := by omega
              rw [hqe]
              exact Option.not_isSome_iff_eq_none.mp hns
            · intro q hq hlt
              have hplt : p < cfg.periods_per_day - 1 := by omega
              have hns : ¬ (s.teacher_schedule t d (p + 1)).isSome = true :=
                fun hocc => h5 ⟨hplt, hocc⟩
              rw [hq]
              exact Option.not_isSome_iff_eq_none.mp hns
      · rw [if_neg (show ¬ ¬ (true = true) by simp), if_pos rfl]
        by_cases h6 : cfg.max_consecutive < count_consecutive_periods cfg s t d p
        · rw [if_pos h6]
          refine iff_of_false (by simp) ?_
          rintro ⟨-, -, hc⟩
          omega
        · rw [if_neg h6]
          exact iff_of_true rfl ⟨hfree, hload, by omega⟩

theorem is_teacher_available_characterization_witness :
    is_teacher_available cfgTiny (reset_data_structures cfgTiny) "T" 0 0 = true :=
  (is_teacher_available_characterization cfgTiny (reset_data_structures cfgTiny) "T" 0 0
    (by decide) (by decide)).mpr
    ⟨rfl, by decide, by rw [if_pos (show cfgTiny.allow_adjacent = true from rfl)]; decide⟩
theorem validateQuotas_iff (cfg : Config) (s : State) :
    validateQuotas cfg s = true ↔ QuotasExact cfg s := by
  simp [validateQuotas, QuotasExact, List.all_eq_true]

theorem validateLoads_iff (cfg : Config) (s : State) :
    validateLoads cfg s = true ↔ LoadsWithinCap cfg s := by
  simp [validateLoads, LoadsWithinCap, List.all_eq_true, List.mem_range]

theorem validateConflicts_iff (cfg : Config) (s : State) :
    validateConflicts cfg s = true ↔ NoSlotConflict cfg s := by
  simp [validateConflicts, NoSlotConflict, List.all_eq_true, List.mem_range]

theorem validateConsecutive_iff (cfg : Config) (s : State) :
    validateConsecutive cfg s = true ↔
      (cfg.allow_adjacent = true → NoConsecutiveViolation cfg s) := by
  unfold validateConsecutive
  cases hadj : cfg.allow_adjacent
  · simp
  · simp [NoConsecutiveViolation, List.all_eq_true, List.mem_range]

/-- C7 (amended): `validate_timetables` is a pure function of the state and
returns `True` iff quotas are met exactly, loads respect `max_daily_load`,
no slot lists one teacher twice, and — only when `allow_adjacent` is set —
no teacher's consecutive run exceeds `max_consecutive`; in strict mode the
source performs no adjacency re-check. -/
theorem validate_timetables_iff (cfg : Config) (s : State) :
    validate_timetables cfg s = true ↔
      (QuotasExact cfg s ∧ LoadsWithinCap cfg s ∧ NoSlotConflict cfg s
        ∧ (cfg.allow_adjacent = true → NoConsecutiveViolation cfg s)) := by
  unfold validate_timetables
  rw [Bool.and_eq_true, Bool.and_eq_true, Bool.and_eq_true,
    validateQuotas_iff, validateLoads_iff, validateConflicts_iff, validateConsecutive_iff]
  tauto

/-- C7 counterexample: in strict mode (`allow_adjacent = false`), a state
with the same teacher in two adjacent periods still validates, so
`validate_timetables` is not the conjunction claimed (with the
consecutive/adjacency check performed in both modes). -/
theorem validate_timetables_not_strict_checked :
    ¬ (validate_timetables cfgStrict stateAdjacent = true ↔
        (QuotasExact cfgStrict stateAdjacent ∧ LoadsWithinCap cfgStrict stateAdjacent
          ∧ NoSlotConflict cfgStrict stateAdjacent
          ∧ NoAdjacentStrict cfgStrict stateAdjacent)) := by
  intro h
  have hv : validate_timetables cfgStrict stateAdjacent = true := by decide
  have hadjacent := (h.mp hv).2.2.2 "T" (by decide) 0 (by decide) 0 (by decide)
  exact hadjacent ⟨by decide, by decide⟩
open Hillclimb

theorem hillClimbLoop_invariant (teachers : List String) (days periods : Nat)
    (ρ : Planora.Rand) :
    ∀ (n : Nat) (tt : List (List String)) (cost : Int) (k : Nat),
      cost = evaluate_cost tt teachers days periods →
      (hillClimbLoop teachers days periods ρ n tt cost k).2.1
          = evaluate_cost (hillClimbLoop teachers days periods ρ n tt cost k).1
              teachers days periods
        ∧ (hillClimbLoop teachers days periods ρ n tt cost k).2.1 ≤ cost := by
  intro n
  induction n with
  | zero => intro tt cost k h; exact ⟨h, le_refl _⟩
  | succ n ih =>
      intro tt cost k h
      simp only [hillClimbLoop]
      by_cases hlt :
          evaluate_cost (mutate_timetable tt teachers ρ k).1 teachers days periods < cost
      · rw [if_pos hlt]
        by_cases hz :
            evaluate_cost (mutate_timetable tt teachers ρ k).1 teachers days periods = 0
        · rw [if_pos hz]
          exact ⟨rfl, le_of_lt hlt⟩
        · rw [if_neg hz]
          have := ih (mutate_timetable tt teachers ρ k).1
            (evaluate_cost (mutate_timetable tt teachers ρ k).1 teachers days periods)
            (mutate_timetable tt teachers ρ k).2 rfl
          exact ⟨this.1, le_trans this.2 (le_of_lt hlt)⟩
      · rw [if_neg hlt]
        by_cases hz : cost = 0
        · rw [if_pos hz]
          exact ⟨h, le_refl _⟩
        · rw [if_neg hz]
          have := ih tt cost (mutate_timetable tt teachers ρ k).2 h
          exact this

/-- C10: in `hill_climb_timetable` a mutation is accepted only when its
cost is strictly lower, so the accepted cost is non-increasing across the
iteration loop (first conjunct, for every iteration count), the returned
cost equals `evaluate_cost` of the returned timetable, and the returned
cost is at most the cost of the initial random proposal (second conjunct). -/
theorem hill_climb_cost_monotone (teachers : List String) (days periods : Nat)
    (ρ : Planora.Rand) :
    (∀ (n : Nat) (tt : List (List String)) (cost : Int) (k : Nat),
        cost = evaluate_cost tt teachers days periods →
        (hillClimbLoop teachers days periods ρ n tt cost k).2.1
            = evaluate_cost (hillClimbLoop teachers days periods ρ n tt cost k).1
                teachers days periods
          ∧ (hillClimbLoop teachers days periods ρ n tt cost k).2.1 ≤ cost)
    ∧ (∀ (max_iterations k : Nat),
        (hill_climb_timetable teachers days periods max_iterations ρ k).2.1
            = evaluate_cost (hill_climb_timetable teachers days periods max_iterations ρ k).1
                teachers days periods
          ∧ (hill_climb_timetable teachers days periods max_iterations ρ k).2.1
            ≤ evaluate_cost (propose_random_timetable teachers days periods ρ k).1
                teachers days periods) := by
  refine ⟨hillClimbLoop_invariant teachers days periods ρ, fun max_iterations k => ?_⟩
  exact hillClimbLoop_invariant teachers days periods ρ max_iterations
    (propose_random_timetable teachers days periods ρ k).1 _
    (propose_random_timetable teachers days periods ρ k).2 rfl

theorem hill_climb_cost_monotone_witness :
    (hillClimbLoop ["T1"] 1 2 Planora.rhoZero 2 [["T1", "T1"]]
        (evaluate_cost [["T1", "T1"]] ["T1"] 1 2) 0).2.1
      ≤ evaluate_cost [["T1", "T1"]] ["T1"] 1 2 :=
  ((hill_climb_cost_monotone ["T1"] 1 2 Planora.rhoZero).1 2 [["T1", "T1"]]
    (evaluate_cost [["T1", "T1"]] ["T1"] 1 2) 0 rfl).2
theorem upd2_same {κ₁ κ₂ α : Type} [DecidableEq κ₁] [DecidableEq κ₂]
    (f : κ₁ → κ₂ → α) (x : κ₁) (y : κ₂) (v : α) : upd2 f x y v x y = v := by
  simp [upd2]

theorem upd2_upd2 {κ₁ κ₂ α : Type} [DecidableEq κ₁] [DecidableEq κ₂]
    (f : κ₁ → κ₂ → α) (x : κ₁) (y : κ₂) (v w : α) :
    upd2 (upd2 f x y v) x y w = upd2 f x y w := by
  funext a b
  simp only [upd2]
  split <;> rfl

theorem upd2_self {κ₁ κ₂ α : Type} [DecidableEq κ₁] [DecidableEq κ₂]
    (f : κ₁ → κ₂ → α) (x : κ₁) (y : κ₂) : upd2 f x y (f x y) = f := by
  funext a b
  simp only [upd2]
  split
  · next h => rw [h.1, h.2]
  · rfl

theorem upd3_same {κ₁ κ₂ κ₃ α : Type} [DecidableEq κ₁] [DecidableEq κ₂] [DecidableEq κ₃]
    (f : κ₁ → κ₂ → κ₃ → α) (x : κ₁) (y : κ₂) (z : κ₃) (v : α) : upd3 f x y z v x y z = v := by
  simp [upd3]

theorem upd3_upd3 {κ₁ κ₂ κ₃ α : Type} [DecidableEq κ₁] [DecidableEq κ₂] [DecidableEq κ₃]
    (f : κ₁ → κ₂ → κ₃ → α) (x : κ₁) (y : κ₂) (z : κ₃) (v w : α) :
    upd3 (upd3 f x y z v) x y z w = upd3 f x y z w := by
  funext a b c
  simp only [upd3]
  split <;> rfl

theorem upd3_self {κ₁ κ₂ κ₃ α : Type} [DecidableEq κ₁] [DecidableEq κ₂] [DecidableEq κ₃]
    (f : κ₁ → κ₂ → κ₃ → α) (x : κ₁) (y : κ₂) (z : κ₃) : upd3 f x y z (f x y z) = f := by
  funext a b c
  simp only [upd3]
  split
  · next h => rw [h.1, h.2.1, h.2.2]
  · rfl

theorem remove_assign_cancel (s : State) (t c : String) (d p : Nat) (sub : String)
    (h1 : s.teacher_schedule t d p = none) (h2 : s.timetables c d p = none) :
    remove_teacher_from_slot (assign_teacher_to_slot s t c d p sub) t c d p sub = s := by
  unfold remove_teacher_from_slot assign_teacher_to_slot
  have hsc : s.subject_counts c sub + 1 - 1 = s.subject_counts c sub := by ring
  have hld : s.teacher_daily_load t d + 1 - 1 = s.teacher_daily_load t d := by ring
  ext1
  · dsimp only
    rw [upd3_upd3, ← h1, upd3_self]
  · dsimp only
    rw [upd3_upd3, ← h2, upd3_self]
  · dsimp only
    rw [upd2_same, upd2_upd2, hsc, upd2_self]
  · dsimp only
    rw [upd2_same, upd2_upd2, hld, upd2_self]

theorem assign_remove_cancel (s : State) (t c : String) (d p : Nat) (sub : String)
    (h1 : s.teacher_schedule t d p = some c) (h2 : s.timetables c d p = some (t, sub)) :
    assign_teacher_to_slot (remove_teacher_from_slot s t c d p sub) t c d p sub = s := by
  unfold remove_teacher_from_slot assign_teacher_to_slot
  have hsc : s.subject_counts c sub - 1 + 1 = s.subject_counts c sub := by ring
  have hld : s.teacher_daily_load t d - 1 + 1 = s.teacher_daily_load t d := by ring
  ext1
  · dsimp only
    rw [upd3_upd3, ← h1, upd3_self]
  · dsimp only
    rw [upd3_upd3, ← h2, upd3_self]
  · dsimp only
    rw [upd2_same, upd2_upd2, hsc, upd2_self]
  · dsimp only
    rw [upd2_same, upd2_upd2, hld, upd2_self]

theorem available_schedule_none (cfg : Config) (s : State) (t : String) (d p : Nat)
    (h : is_teacher_available cfg s t d p = true) : s.teacher_schedule t d p = none := by
  unfold is_teacher_available at h
  by_cases h1 : (s.teacher_schedule t d p).isSome
  · rw [if_pos h1] at h
    exact absurd h (by simp)
  · exact Option.not_isSome_iff_eq_none.mp h1
theorem relocPeriods_next_eq (cfg : Config) (ρ : Rand)
    (t from_c sub target_c target_sub : String) (fd fp d : Nat) :
    ∀ (ps : List Nat) (s : State) (k : Nat) (s' : State) (k' : Nat),
      relocPeriods cfg ρ t from_c sub target_c target_sub fd fp d ps s k = .next s' k' →
      s' = s := by
  intro ps
  induction ps with
  | nil =>
      intro s k s' k' h
      simp only [relocPeriods] at h
      cases h
      rfl
  | cons p ps ih =>
      intro s k s' k' h
      simp only [relocPeriods] at h
      by_cases hc : s.timetables from_c d p = none ∧ is_teacher_available cfg s t d p = true
      · rw [if_pos hc] at h
        cases hl : (get_available_teachers_ranked cfg
            (assign_teacher_to_slot s t from_c d p sub) fd fp ρ k).1 with
        | cons t2 ts => rw [hl] at h; cases h
        | nil =>
            rw [hl] at h
            cases h
            exact remove_assign_cancel s t from_c d p sub
              (available_schedule_none cfg s t d p hc.2) hc.1
      · rw [if_neg hc] at h
        exact ih s k s' k' h

theorem relocDays_false_eq (cfg : Config) (ρ : Rand)
    (t from_c sub target_c target_sub : String) (fd fp : Nat) :
    ∀ (ds : List Nat) (s : State) (k : Nat) (s' : State) (k' : Nat),
      relocDays cfg ρ t from_c sub target_c target_sub fd fp ds s k = (false, s', k') →
      s' = assign_teacher_to_slot s t from_c fd fp sub := by
  intro ds
  induction ds with
  | nil =>
      intro s k s' k' h
      simp only [relocDays] at h
      cases h
      rfl
  | cons d ds ih =>
      intro s k s' k' h
      simp only [relocDays] at h
      cases hstep : relocPeriods cfg ρ t from_c sub target_c target_sub fd fp d
          (List.range cfg.periods_per_day) s k with
      | success s2 k2 => rw [hstep] at h; cases h
      | next s2 k2 =>
          rw [hstep] at h
          have hs2 : s2 = s :=
            relocPeriods_next_eq cfg ρ t from_c sub target_c target_sub fd fp d
              (List.range cfg.periods_per_day) s k s2 k2 hstep
          rw [ih s2 k2 s' k' h, hs2]

/-- C3: relocation atomicity — on any state whose two grids agree on the
donor cell (as every state reachable by the scheduler's own mutations
does), a failing `try_relocate_assignment` trial leaves the entire state
(`teacher_schedule`, `timetables`, `subject_counts`, `teacher_daily_load`)
exactly as it was before the call. -/
theorem try_relocate_assignment_atomic (cfg : Config) (from_c : String) (fd fp : Nat)
    (target_c target_sub : String) (s : State) (ρ : Rand) (k : Nat)
    (hcons : ∀ t sub, s.timetables from_c fd fp = some (t, sub) →
      s.teacher_schedule t fd fp = some from_c)
    (hfail : (try_relocate_assignment cfg from_c fd fp target_c target_sub s ρ k).1 = false) :
    (try_relocate_assignment cfg from_c fd fp target_c target_sub s ρ k).2.1 = s := by
  have heq : try_relocate_assignment cfg from_c fd fp target_c target_sub s ρ k =
      (false, (try_relocate_assignment cfg from_c fd fp target_c target_sub s ρ k).2.1,
        (try_relocate_assignment cfg from_c fd fp target_c target_sub s ρ k).2.2) := by
    rw [← hfail]
  revert heq
  generalize (try_relocate_assignment cfg from_c fd fp target_c target_sub s ρ k).2.1 = s'
  generalize (try_relocate_assignment cfg from_c fd fp target_c target_sub s ρ k).2.2 = k'
  intro heq
  unfold try_relocate_assignment at heq
  cases htt : s.timetables from_c fd fp with
  | none =>
      rw [htt] at heq
      cases heq
      rfl
  | some ts =>
      obtain ⟨t, sub⟩ := ts
      rw [htt] at heq
      simp only at heq
      by_cases hc : (cfg.teachers.any (fun t' => is_teacher_available cfg
            (remove_teacher_from_slot s t from_c fd fp sub) t' fd fp))
          ∧ (remove_teacher_from_slot s t from_c fd fp sub).timetables target_c fd fp = none
      · rw [if_pos hc] at heq
        have := relocDays_false_eq cfg ρ t from_c sub target_c target_sub fd fp
          (List.range cfg.days) (remove_teacher_from_slot s t from_c fd fp sub) _ s' k' heq
        rw [this]
        exact assign_remove_cancel s t from_c fd fp sub (hcons t sub htt) htt
      · rw [if_neg hc] at heq
        cases heq
        exact assign_remove_cancel s t from_c fd fp sub (hcons t sub htt) htt

theorem try_relocate_assignment_atomic_witness :
    (try_relocate_assignment cfgTiny "A" 0 0 "A" "S" (reset_data_structures cfgTiny)
        rhoZero 0).2.1 = reset_data_structures cfgTiny :=
  try_relocate_assignment_atomic cfgTiny "A" 0 0 "A" "S" (reset_data_structures cfgTiny)
    rhoZero 0 (fun _ _ h => Option.noConfusion h) rfl
theorem sortDescPerturbed_perm {α : Type} (key : α → Int) (c : Nat) (ρ : Rand) (k : Nat)
    (l : List α) : ((sortDescPerturbed key c ρ k l).1).Perm l := by
  unfold sortDescPerturbed
  have h1 : ((List.insertionSort (fun a b : α × Int => b.2 ≤ a.2)
      (decorateKeys key c ρ k l)).map Prod.fst).Perm
      ((decorateKeys key c ρ k l).map Prod.fst) :=
    (List.perm_insertionSort _ _).map Prod.fst
  have h2 : (decorateKeys key c ρ k l).map Prod.fst = l := by
    unfold decorateKeys
    rw [List.map_map]
    exact List.enum_map_snd l
  rw [h2] at h1
  exact h1

theorem sortDescPerturbed_sorted {α : Type} (key : α → Int) (c : Nat) (ρ : Rand) (k : Nat)
    (l : List α) :
    (List.insertionSort (fun a b : α × Int => b.2 ≤ a.2) (decorateKeys key c ρ k l)).Pairwise
      (fun a b : α × Int => b.2 ≤ a.2) := by
  have htot : IsTotal (α × Int) (fun a b : α × Int => b.2 ≤ a.2) :=
    ⟨fun a b => le_total b.2 a.2⟩
  have htr : IsTrans (α × Int) (fun a b : α × Int => b.2 ≤ a.2) :=
    ⟨fun _ _ _ hab hbc => le_trans hbc hab⟩
  exact @List.sorted_insertionSort _ _ _ htot htr _

theorem decorateKeys_mem_bounds {α : Type} (key : α → Int) (c : Nat) (ρ : Rand) (k : Nat)
    (l : List α) (hc : 0 < c) (hρ : ∀ i, ρ i < RSCALE) :
    ∀ x ∈ decorateKeys key c ρ k l,
      (RSCALE : Int) * key x.1 ≤ x.2 ∧ x.2 < (RSCALE : Int) * key x.1 + c * RSCALE := by
  intro x hx
  unfold decorateKeys at hx
  obtain ⟨ia, -, rfl⟩ := List.mem_map.mp hx
  dsimp only
  constructor
  · have : (0 : Int) ≤ (c : Int) * (ρ (k + ia.1) : Int) := by positivity
    omega
  · have h1 : (ρ (k + ia.1) : Int) < (RSCALE : Int) := by exact_mod_cast hρ (k + ia.1)
    have h2 : (c : Int) * (ρ (k + ia.1) : Int) ≤ (c : Int) * ((RSCALE : Int) - 1) := by
      have : (ρ (k + ia.1) : Int) ≤ (RSCALE : Int) - 1 := by omega
      exact mul_le_mul_of_nonneg_left this (by positivity)
    have hc1 : (1 : Int) ≤ (c : Int) := by exact_mod_cast hc
    nlinarith []

theorem sortDescPerturbed_pairwise_key {α : Type} (key : α → Int) (c : Nat) (ρ : Rand)
    (k : Nat) (l : List α) (hc : 0 < c) (hρ : ∀ i, ρ i < RSCALE) :
    ((sortDescPerturbed key c ρ k l).1).Pairwise (fun u v => key v < key u + c) := by
  have hbounds := decorateKeys_mem_bounds key c ρ k l hc hρ
  have hperm := List.perm_insertionSort (fun a b : α × Int => b.2 ≤ a.2)
    (decorateKeys key c ρ k l)
  have hsorted := sortDescPerturbed_sorted key c ρ k l
  have hpw : (List.insertionSort (fun a b : α × Int => b.2 ≤ a.2)
      (decorateKeys key c ρ k l)).Pairwise (fun a b : α × Int => key b.1 < key a.1 + c) := by
    refine List.Pairwise.imp_of_mem ?_ hsorted
    intro a b ha hb hab
    have hba := hbounds a (hperm.subset ha)
    have hbb := hbounds b (hperm.subset hb)
    have hK : (0 : Int) < (RSCALE : Int) := by norm_num [RSCALE]
    have hlt : (RSCALE : Int) * key b.1 < (RSCALE : Int) * (key a.1 + c) := by
      have := hbb.1
      have := hba.2
      have hmul : (RSCALE : Int) * (key a.1 + c) = (RSCALE : Int) * key a.1 + c * RSCALE := by
        ring
      omega
    exact lt_of_mul_lt_mul_left hlt (le_of_lt hK)
  unfold sortDescPerturbed
  rw [List.pairwise_map]
  exact hpw
theorem mem_allRequiredAssignments_quota_pos (cfg : Config) (c sub : String)
    (h : (c, sub) ∈ allRequiredAssignments cfg) : 0 < cfg.subject_periods sub := by
  unfold allRequiredAssignments at h
  simp only [List.mem_flatMap] at h
  obtain ⟨c', -, sub', -, hmem⟩ := h
  have heq := List.eq_of_mem_replicate hmem
  rw [Prod.mk.injEq] at heq
  obtain ⟨rfl, rfl⟩ := heq
  rcases Nat.eq_zero_or_pos (cfg.subject_periods sub) with hz | hpos
  · rw [hz] at hmem
    simp at hmem
  · exact hpos

theorem urgency_at_reset (cfg : Config) (c sub : String)
    (hq : 0 < cfg.subject_periods sub) :
    get_subject_priority_score cfg (reset_data_structures cfg) c sub
      = 11 * (cfg.subject_periods sub : Int) + 20 := by
  unfold get_subject_priority_score reset_data_structures
  dsimp only
  have hq' : (0 : Int) < (cfg.subject_periods sub : Int) := by exact_mod_cast hq
  rw [if_neg (by omega)]
  rw [if_pos (by omega)]
  ring

/-- C5: the greedy constructor's processing sequence is a permutation of
the full demand-unit multiset, and it is ordered descending by the urgency
score `remaining_to_fulfill*10 + completionBonus + quota` evaluated on the
freshly reset state (at which point the score the source actually sorts by,
`required*10 + random()*5`, induces the very same descending order; ties
are broken by the added randomness). -/
theorem greedy_order_by_urgency (cfg : Config) (ρ : Rand) (k : Nat)
    (hρ : ∀ i, ρ i < RSCALE) :
    ((greedyOrder cfg ρ k).1).Perm (allRequiredAssignments cfg)
    ∧ ((greedyOrder cfg ρ k).1).Pairwise (fun u v : String × String =>
        get_subject_priority_score cfg (reset_data_structures cfg) v.1 v.2
          ≤ get_subject_priority_score cfg (reset_data_structures cfg) u.1 u.2) := by
  have hperm : ((greedyOrder cfg ρ k).1).Perm (allRequiredAssignments cfg) :=
    sortDescPerturbed_perm _ 5 ρ k _
  refine ⟨hperm, ?_⟩
  have hkey := sortDescPerturbed_pairwise_key
    (fun cs : String × String => 10 * (cfg.subject_periods cs.2 : Int)) 5 ρ k
    (allRequiredAssignments cfg) (by norm_num) hρ
  refine List.Pairwise.imp_of_mem ?_ hkey
  intro u v hu hv hlt
  dsimp only at hlt
  have hqu := mem_allRequiredAssignments_quota_pos cfg u.1 u.2 (hperm.subset hu)
  have hqv := mem_allRequiredAssignments_quota_pos cfg v.1 v.2 (hperm.subset hv)
  rw [urgency_at_reset cfg u.1 u.2 hqu, urgency_at_reset cfg v.1 v.2 hqv]
  have : (cfg.subject_periods v.2 : Int) ≤ (cfg.subject_periods u.2 : Int) := by omega
  omega

theorem greedy_order_by_urgency_witness :
    ((greedyOrder cfgTiny rhoZero 0).1).Perm (allRequiredAssignments cfgTiny) :=
  (greedy_order_by_urgency cfgTiny rhoZero 0 (fun _ => by norm_num [rhoZero, RSCALE])).1
theorem tryPairs_map_single (cfg : Config) (c : String) (d p : Nat) (t : String)
    (r : State → Nat → Bool × State × Nat) :
    ∀ (subs : List String) (s : State) (k : Nat),
      tryPairs cfg c d p r (subs.map (fun sub => (t, sub))) s k
        = specSubjectLoop c d p t r subs s k := by
  intro subs
  induction subs with
  | nil => intro s k; rfl
  | cons sub subs ih =>
      intro s k
      simp only [List.map_cons, tryPairs, specSubjectLoop]
      cases hr : r (assign_teacher_to_slot s t c d p sub) k with
      | mk b rest =>
          cases b
          · simp only
            exact ih _ _
          · rfl

theorem tryPairs_append (cfg : Config) (c : String) (d p : Nat)
    (r : State → Nat → Bool × State × Nat) :
    ∀ (l1 l2 : List (String × String)) (s : State) (k : Nat),
      tryPairs cfg c d p r (l1 ++ l2) s k
        = match tryPairs cfg c d p r l1 s k with
          | (true, s2, k2) => (true, s2, k2)
          | (false, s2, k2) => tryPairs cfg c d p r l2 s2 k2 := by
  intro l1
  induction l1 with
  | nil => intro l2 s k; rfl
  | cons ts l1 ih =>
      intro l2 s k
      obtain ⟨t, sub⟩ := ts
      simp only [List.cons_append, tryPairs]
      cases hr : r (assign_teacher_to_slot s t c d p sub) k with
      | mk b rest =>
          cases b
          · simp only
            exact ih _ _ _
          · rfl

theorem tryPairs_flatMap (cfg : Config) (c : String) (d p : Nat) (needed : List String)
    (r : State → Nat → Bool × State × Nat) :
    ∀ (ts : List String) (s : State) (k : Nat),
      tryPairs cfg c d p r (ts.flatMap (fun t => needed.map (fun sub => (t, sub)))) s k
        = specTeacherLoop c d p needed r ts s k := by
  intro ts
  induction ts with
  | nil => intro s k; rfl
  | cons t ts ih =>
      intro s k
      rw [List.flatMap_cons, tryPairs_append, tryPairs_map_single]
      simp only [specTeacherLoop]
      cases hr : specSubjectLoop c d p t r needed s k with
      | mk b rest =>
          cases b
          · simp only
            exact ih _ _
          · rfl

/-- C8: the recursive `backtrack_solve` implements exactly the spec's
state machine over the once-shuffled slot list: `exploring(i)` succeeds
past the end, skips a slot (advancing to `exploring(i+1)`) when the ranked
needed-subjects or available-teachers list is empty, otherwise tries every
(teacher, subject) pair in ranked order — tentatively assigning, recursing,
propagating success, undoing on failure — and fails exactly when all pairs
are exhausted. -/
theorem backtrack_solve_implements_spec (cfg : Config) (ρ : Rand)
    (slots : List (String × Nat × Nat)) :
    ∀ (i : Nat) (s : State) (k : Nat),
      specExploring cfg ρ slots i s k = backtrack_solve cfg ρ (slots.drop i) s k := by
  have key : ∀ (n i : Nat), slots.length - i ≤ n → ∀ (s : State) (k : Nat),
      specExploring cfg ρ slots i s k = backtrack_solve cfg ρ (slots.drop i) s k := by
    intro n
    induction n with
    | zero =>
        intro i hi s k
        have hle : slots.length ≤ i := by omega
        rw [List.drop_eq_nil_of_le hle]
        unfold specExploring
        rw [dif_neg (by omega)]
        rfl
    | succ n ih =>
        intro i hi s k
        by_cases h : i < slots.length
        · have hdrop : slots.drop i = slots.get ⟨i, h⟩ :: slots.drop (i + 1) :=
            List.drop_eq_getElem_cons h
          have hrec : ∀ (s' : State) (k' : Nat),
              specExploring cfg ρ slots (i + 1) s' k'
                = backtrack_solve cfg ρ (slots.drop (i + 1)) s' k' := by
            intro s' k'
            exact ih (i + 1) (by omega) s' k'
          rcases hcdp : slots.get ⟨i, h⟩ with ⟨c, d, p⟩
          rw [hcdp] at hdrop
          rw [hdrop]
          have hfun : (fun s' k' => specExploring cfg ρ slots (i + 1) s' k')
              = (fun s' k' => backtrack_solve cfg ρ (slots.drop (i + 1)) s' k') :=
            funext fun s' => funext fun k' => hrec s' k'
          conv_lhs => rw [specExploring]
          rw [dif_pos h, hcdp]
          simp only [backtrack_solve]
          by_cases hns : (get_priority_subjects_ranked cfg s c ρ k).1 = []
          · rw [if_pos hns, if_pos hns, hrec]
          · rw [if_neg hns, if_neg hns]
            by_cases hav : (get_available_teachers_ranked cfg s d p ρ
                (get_priority_subjects_ranked cfg s c ρ k).2).1 = []
            · rw [if_pos hav, if_pos hav, hrec]
            · rw [if_neg hav, if_neg hav, tryPairs_flatMap, hfun]
        · have hle : slots.length ≤ i := by omega
          rw [List.drop_eq_nil_of_le hle]
          unfold specExploring
          rw [dif_neg (by omega)]
          rfl
  intro i s k
  exact key (slots.length - i) i (le_refl _) s k
theorem available_load_lt (cfg : Config) (s : State) (t : String) (d p : Nat)
    (h : is_teacher_available cfg s t d p = true) :
    s.teacher_daily_load t d < (cfg.max_daily_load : Int) := by
  unfold is_teacher_available at h
  by_cases h1 : (s.teacher_schedule t d p).isSome
  · rw [if_pos h1] at h
    exact absurd h (by simp)
  · rw [if_neg h1] at h
    by_cases h2 : (cfg.max_daily_load : Int) ≤ s.teacher_daily_load t d
    · rw [if_pos h2] at h
      exact absurd h (by simp)
    · omega

theorem available_count_le (cfg : Config) (s : State) (t : String) (d p : Nat)
    (hadj : cfg.allow_adjacent = true) (h : is_teacher_available cfg s t d p = true) :
    count_consecutive_periods cfg s t d p ≤ cfg.max_consecutive := by
  unfold is_teacher_available at h
  by_cases h1 : (s.teacher_schedule t d p).isSome
  · rw [if_pos h1] at h
    exact absurd h (by simp)
  · rw [if_neg h1] at h
    by_cases h2 : (cfg.max_daily_load : Int) ≤ s.teacher_daily_load t d
    · rw [if_pos h2] at h
      exact absurd h (by simp)
    · rw [if_neg h2, if_neg (show ¬ ¬ (cfg.allow_adjacent = true) by simp [hadj])] at h
      by_cases h3 : cfg.max_consecutive < count_consecutive_periods cfg s t d p
      · rw [if_pos h3] at h
        exact absurd h (by simp)
      · omega

theorem available_strict_neighbors (cfg : Config) (s : State) (t : String) (d p : Nat)
    (hadj : cfg.allow_adjacent = false) (h : is_teacher_available cfg s t d p = true) :
    (∀ q, q + 1 = p → s.teacher_schedule t d q = none)
    ∧ (p < cfg.periods_per_day - 1 → s.teacher_schedule t d (p + 1) = none) := by
  unfold is_teacher_available at h
  by_cases h1 : (s.teacher_schedule t d p).isSome
  · rw [if_pos h1] at h
    exact absurd h (by simp)
  · rw [if_neg h1] at h
    by_cases h2 : (cfg.max_daily_load : Int) ≤ s.teacher_daily_load t d
    · rw [if_pos h2] at h
      exact absurd h (by simp)
    · rw [if_neg h2, if_pos (show ¬ (cfg.allow_adjacent = true) by simp [hadj])] at h
      by_cases h3 : 0 < p ∧ (s.teacher_schedule t d (p - 1)).isSome
      · rw [if_pos h3] at h
        exact absurd h (by simp)
      · rw [if_neg h3] at h
        by_cases h4 : p < cfg.periods_per_day - 1 ∧ (s.teacher_schedule t d (p + 1)).isSome
        · rw [if_pos h4] at h
          exact absurd h (by simp)
        · constructor
          · intro q hq
            have : ¬ (s.teacher_schedule t d (p - 1)).isSome = true :=
              fun hocc => h3 ⟨by omega, hocc⟩
            have hqe : q = p - 1 := by omega
            rw [hqe]
            exact Option.not_isSome_iff_eq_none.mp this
          · intro hplt
            have : ¬ (s.teacher_schedule t d (p + 1)).isSome = true :=
              fun hocc => h4 ⟨hplt, hocc⟩
            exact Option.not_isSome_iff_eq_none.mp this

theorem assign_schedule_eq (s : State) (t c : String) (d p : Nat) (sub : String)
    (t' : String) (d' p' : Nat) :
    (assign_teacher_to_slot s t c d p sub).teacher_schedule t' d' p'
      = if t' = t ∧ d' = d ∧ p' = p then some c else s.teacher_schedule t' d' p' := rfl

theorem assign_timetables_eq (s : State) (t c : String) (d p : Nat) (sub : String)
    (c' : String) (d' p' : Nat) :
    (assign_teacher_to_slot s t c d p sub).timetables c' d' p'
      = if c' = c ∧ d' = d ∧ p' = p then some (t, sub) else s.timetables c' d' p' := rfl

theorem assign_counts_eq (s : State) (t c : String) (d p : Nat) (sub : String)
    (c' x : String) :
    (assign_teacher_to_slot s t c d p sub).subject_counts c' x
      = if c' = c ∧ x = sub then s.subject_counts c sub + 1 else s.subject_counts c' x := rfl

theorem assign_load_eq (s : State) (t c : String) (d p : Nat) (sub : String)
    (t' : String) (d' : Nat) :
    (assign_teacher_to_slot s t c d p sub).teacher_daily_load t' d'
      = if t' = t ∧ d' = d then s.teacher_daily_load t d + 1
        else s.teacher_daily_load t' d' := rfl

theorem remove_schedule_eq (s : State) (t c : String) (d p : Nat) (sub : String)
    (t' : String) (d' p' : Nat) :
    (remove_teacher_from_slot s t c d p sub).teacher_schedule t' d' p'
      = if t' = t ∧ d' = d ∧ p' = p then none else s.teacher_schedule t' d' p' := rfl

theorem remove_timetables_eq (s : State) (t c : String) (d p : Nat) (sub : String)
    (c' : String) (d' p' : Nat) :
    (remove_teacher_from_slot s t c d p sub).timetables c' d' p'
      = if c' = c ∧ d' = d ∧ p' = p then none else s.timetables c' d' p' := rfl

theorem remove_counts_eq (s : State) (t c : String) (d p : Nat) (sub : String)
    (c' x : String) :
    (remove_teacher_from_slot s t c d p sub).subject_counts c' x
      = if c' = c ∧ x = sub then s.subject_counts c sub - 1 else s.subject_counts c' x := rfl

theorem remove_load_eq (s : State) (t c : String) (d p : Nat) (sub : String)
    (t' : String) (d' : Nat) :
    (remove_teacher_from_slot s t c d p sub).teacher_daily_load t' d'
      = if t' = t ∧ d' = d then s.teacher_daily_load t d - 1
        else s.teacher_daily_load t' d' := rfl
theorem countBack_le (s : State) (t : String) (d : Nat) : ∀ p, countBack s t d p ≤ p := by
  intro p
  induction p with
  | zero => simp [countBack]
  | succ p ih =>
      unfold countBack
      by_cases h : (s.teacher_schedule t d p).isSome
      · rw [if_pos h]
        omega
      · rw [if_neg h]
        omega

theorem countBack_boundary (s : State) (t : String) (d : Nat) :
    ∀ p, countBack s t d p < p →
      (s.teacher_schedule t d (p - countBack s t d p - 1)).isSome = false := by
  intro p
  induction p with
  | zero => intro h; omega
  | succ p ih =>
      intro h
      unfold countBack at h ⊢
      by_cases hocc : (s.teacher_schedule t d p).isSome
      · rw [if_pos hocc] at h ⊢
        have hlt : countBack s t d p < p := by omega
        have := ih hlt
        have harith : p + 1 - (countBack s t d p + 1) - 1 = p - countBack s t d p - 1 := by
          omega
        rw [harith]
        exact this
      · rw [if_neg hocc]
        have harith : p + 1 - 0 - 1 = p := by omega
        rw [harith]
        exact eq_false_of_ne_true hocc

theorem countFwdAux_boundary (occ : Nat → Bool) :
    ∀ fuel q, occ (q + countFwdAux occ q fuel) = false ∨ fuel ≤ countFwdAux occ q fuel := by
  intro fuel
  induction fuel with
  | zero => intro q; right; exact le_refl 0
  | succ fuel ih =>
      intro q
      unfold countFwdAux
      by_cases h : occ q
      · rw [if_pos h]
        rcases ih (q + 1) with hl | hr
        · left
          have : q + (countFwdAux occ (q + 1) fuel + 1) = q + 1 + countFwdAux occ (q + 1) fuel := by
            omega
          rw [this]
          exact hl
        · right
          omega
      · rw [if_neg h]
        left
        simpa using eq_false_of_ne_true h
theorem NoRun_mono (occ occ' : Nat → Bool) (m : Nat)
    (hmono : ∀ q, occ' q = true → occ q = true) (h : NoRun occ m) : NoRun occ' m := by
  intro start
  obtain ⟨j, hj, hgap⟩ := h start
  refine ⟨j, hj, ?_⟩
  by_cases h' : occ' (start + j) = true
  · rw [hmono _ h'] at hgap
    exact absurd hgap (by simp)
  · exact eq_false_of_ne_true h'

theorem NoRun_insert (occ : Nat → Bool) (m p cb cf : Nat)
    (hnr : NoRun occ m)
    (hsum : cb + cf + 1 ≤ m)
    (hcb_le : cb ≤ p)
    (hback : cb < p → occ (p - cb - 1) = false)
    (hfwd : occ (p + 1 + cf) = false) :
    NoRun (fun q => if q = p then true else occ q) m := by
  intro start
  by_cases hwin : start ≤ p ∧ p ≤ start + m
  · obtain ⟨hw1, hw2⟩ := hwin
    by_cases hcase : p + cf < start + m
    · have hj : p + cf + 1 - start ≤ m := by omega
      have harith : start + (p + cf + 1 - start) = p + 1 + cf := by omega
      have hne : p + 1 + cf ≠ p := by omega
      refine ⟨p + cf + 1 - start, hj, ?_⟩
      show (if start + (p + cf + 1 - start) = p then true
        else occ (start + (p + cf + 1 - start))) = false
      rw [harith, if_neg hne]
      exact hfwd
    · have hstart : start + cb + 1 ≤ p := by omega
      have hcblt : cb < p := by omega
      have hj : p - cb - 1 - start ≤ m := by omega
      have harith : start + (p - cb - 1 - start) = p - cb - 1 := by omega
      have hne : p - cb - 1 ≠ p := by omega
      refine ⟨p - cb - 1 - start, hj, ?_⟩
      show (if start + (p - cb - 1 - start) = p then true
        else occ (start + (p - cb - 1 - start))) = false
      rw [harith, if_neg hne]
      exact hback hcblt
  · push_neg at hwin
    obtain ⟨j, hj, hgap⟩ := hnr start
    refine ⟨j, hj, ?_⟩
    have hne : start + j ≠ p := by
      by_cases hsp : start ≤ p
      · have := hwin hsp
        omega
      · omega
    show (if start + j = p then true else occ (start + j)) = false
    rw [if_neg hne]
    exact hgap

theorem NoAdjacent_insert (occ : Nat → Bool) (p : Nat)
    (hna : ∀ q, ¬ (occ q = true ∧ occ (q + 1) = true))
    (hleft : ∀ q, q + 1 = p → occ q = false)
    (hright : occ (p + 1) = false) :
    ∀ q, ¬ ((if q = p then true else occ q) = true
      ∧ (if q + 1 = p then true else occ (q + 1)) = true) := by
  intro q
  rintro ⟨hq, hq1⟩
  by_cases h1 : q = p
  · rw [if_neg (by omega)] at hq1
    rw [h1] at hq1
    rw [hright] at hq1
    exact absurd hq1 (by simp)
  · rw [if_neg h1] at hq
    by_cases h2 : q + 1 = p
    · rw [hleft q h2] at hq
      exact absurd hq (by simp)
    · rw [if_neg h2] at hq1
      exact hna q ⟨hq, hq1⟩
theorem mem_available_teachers (cfg : Config) (s : State) (d p : Nat) (ρ : Rand) (k : Nat)
    (t : String) (h : t ∈ (get_available_teachers_ranked cfg s d p ρ k).1) :
    is_teacher_available cfg s t d p = true ∧ t ∈ cfg.teachers := by
  have hmem : t ∈ cfg.teachers.filter (fun t => is_teacher_available cfg s t d p) :=
    (sortDescPerturbed_perm _ 2 ρ k _).subset h
  rw [List.mem_filter] at hmem
  exact ⟨hmem.2, hmem.1⟩

theorem mem_priority_subjects (cfg : Config) (s : State) (c : String) (ρ : Rand) (k : Nat)
    (sub : String) (h : sub ∈ (get_priority_subjects_ranked cfg s c ρ k).1) :
    s.subject_counts c sub < (cfg.subject_periods sub : Int) ∧ sub ∈ cfg.subjects := by
  have hmem : sub ∈ cfg.subjects.filter
      (fun sub => decide (0 < get_subject_priority_score cfg s c sub)) :=
    (sortDescPerturbed_perm _ 1 ρ k _).subset h
  rw [List.mem_filter] at hmem
  obtain ⟨hsub, hpos⟩ := hmem
  rw [decide_eq_true_eq] at hpos
  refine ⟨?_, hsub⟩
  unfold get_subject_priority_score at hpos
  by_cases hrem : (cfg.subject_periods sub : Int) - s.subject_counts c sub ≤ 0
  · rw [if_pos hrem] at hpos
    omega
  · omega

theorem mem_emptySlots (cfg : Config) (s : State) (c : String) (dp : Nat × Nat)
    (h : dp ∈ emptySlots cfg s c) :
    dp.1 < cfg.days ∧ dp.2 < cfg.periods_per_day ∧ s.timetables c dp.1 dp.2 = none := by
  unfold emptySlots at h
  rw [List.mem_flatMap] at h
  obtain ⟨d, hd, hmem⟩ := h
  rw [List.mem_filterMap] at hmem
  obtain ⟨p, hp, heq⟩ := hmem
  rw [List.mem_range] at hd hp
  by_cases hcell : s.timetables c d p = none
  · rw [if_pos hcell] at heq
    cases heq
    exact ⟨hd, hp, hcell⟩
  · rw [if_neg hcell] at heq
    cases heq

theorem mem_filledTriples (cfg : Config) (s : State) (cdp : String × Nat × Nat)
    (h : cdp ∈ filledTriples cfg s) :
    cdp.1 ∈ cfg.classrooms ∧ cdp.2.1 < cfg.days ∧ cdp.2.2 < cfg.periods_per_day := by
  unfold filledTriples at h
  rw [List.mem_flatMap] at h
  obtain ⟨c, hc, hmem⟩ := h
  rw [List.mem_flatMap] at hmem
  obtain ⟨d, hd, hmem⟩ := hmem
  rw [List.mem_filterMap] at hmem
  obtain ⟨p, hp, heq⟩ := hmem
  rw [List.mem_range] at hd hp
  by_cases hcell : (s.timetables c d p).isSome
  · rw [if_pos hcell] at heq
    cases heq
    exact ⟨hc, hd, hp⟩
  · rw [if_neg hcell] at heq
    cases heq

theorem mem_allSlotTriples (cfg : Config) (cdp : String × Nat × Nat)
    (h : cdp ∈ allSlotTriples cfg) :
    cdp.1 ∈ cfg.classrooms ∧ cdp.2.1 < cfg.days ∧ cdp.2.2 < cfg.periods_per_day := by
  unfold allSlotTriples at h
  rw [List.mem_flatMap] at h
  obtain ⟨d, hd, hmem⟩ := h
  rw [List.mem_flatMap] at hmem
  obtain ⟨p, hp, hmem⟩ := hmem
  rw [List.mem_map] at hmem
  obtain ⟨c, hc, heq⟩ := hmem
  rw [List.mem_range] at hd hp
  cases heq
  exact ⟨hc, hd, hp⟩

theorem shuffleR_perm {α : Type} (ρ : Rand) (k : Nat) (l : List α) :
    ((shuffleR ρ k l).1).Perm l := by
  unfold shuffleR
  have h1 : ((List.insertionSort (fun a b : α × Nat => a.2 ≤ b.2)
      (l.enum.map (fun ia => (ia.2, ρ (k + ia.1))))).map Prod.fst).Perm
      ((l.enum.map (fun ia => (ia.2, ρ (k + ia.1)))).map Prod.fst) :=
    (List.perm_insertionSort _ _).map Prod.fst
  have h2 : (l.enum.map (fun ia => (ia.2, ρ (k + ia.1)))).map Prod.fst = l := by
    rw [List.map_map]
    exact List.enum_map_snd l
  rw [h2] at h1
  exact h1

theorem allSlotTriples_nodup (cfg : Config) (hcls : cfg.classrooms.Nodup) :
    (allSlotTriples cfg).Nodup := by
  unfold allSlotTriples
  rw [List.nodup_flatMap]
  refine ⟨?_, ?_⟩
  · intro d hd
    rw [List.nodup_flatMap]
    refine ⟨?_, ?_⟩
    · intro p hp
      refine hcls.map ?_
      intro c1 c2 h
      exact congrArg Prod.fst h
    · refine List.Pairwise.imp ?_ (List.nodup_range cfg.periods_per_day)
      intro p q hpq x hx hy
      rw [List.mem_map] at hx hy
      obtain ⟨c1, -, rfl⟩ := hx
      obtain ⟨c2, -, heq⟩ := hy
      exact hpq (congrArg (fun z : String × Nat × Nat => z.2.2) heq).symm
  · refine List.Pairwise.imp ?_ (List.nodup_range cfg.days)
    intro d1 d2 hd12 x hx hy
    rw [List.mem_flatMap] at hx hy
    obtain ⟨p1, -, hx⟩ := hx
    obtain ⟨p2, -, hy⟩ := hy
    rw [List.mem_map] at hx hy
    obtain ⟨c1, -, rfl⟩ := hx
    obtain ⟨c2, -, heq⟩ := hy
    exact hd12 (congrArg (fun z : String × Nat × Nat => z.2.1) heq).symm
theorem assign_row_occ (s : State) (t c : String) (d p : Nat) (sub : String) (q : Nat) :
    ((assign_teacher_to_slot s t c d p sub).teacher_schedule t d q).isSome
      = (if q = p then true else (s.teacher_schedule t d q).isSome) := by
  rw [assign_schedule_eq]
  by_cases h : q = p
  · rw [if_pos ⟨rfl, rfl, h⟩, if_pos h]
    rfl
  · rw [if_neg (fun hk => h hk.2.2), if_neg h]

theorem assign_row_other (s : State) (t c : String) (d p : Nat) (sub : String)
    (t' : String) (d' q : Nat) (h : ¬ (t' = t ∧ d' = d)) :
    (assign_teacher_to_slot s t c d p sub).teacher_schedule t' d' q
      = s.teacher_schedule t' d' q := by
  rw [assign_schedule_eq, if_neg (fun hk => h ⟨hk.1, hk.2.1⟩)]

theorem remove_row_mono (s : State) (t c : String) (d p : Nat) (sub : String)
    (t' : String) (d' q : Nat)
    (h : ((remove_teacher_from_slot s t c d p sub).teacher_schedule t' d' q).isSome = true) :
    (s.teacher_schedule t' d' q).isSome = true := by
  rw [remove_schedule_eq] at h
  by_cases hkey : t' = t ∧ d' = d ∧ q = p
  · rw [if_pos hkey] at h
    exact absurd h (by simp)
  · rw [if_neg hkey] at h
    exact h

theorem assign_preserves_Wf (cfg : Config) (s : State) (t c : String) (d p : Nat)
    (sub : String) (hav : is_teacher_available cfg s t d p = true)
    (hp : p < cfg.periods_per_day) (hwf : Wf cfg s) :
    Wf cfg (assign_teacher_to_slot s t c d p sub) := by
  obtain ⟨hW1, hRange, hInv2, hInv3⟩ := hwf
  have hfree : s.teacher_schedule t d p = none := available_schedule_none cfg s t d p hav
  refine ⟨?_, ?_, ?_, ?_⟩
  · intro c' d' p' t' sub' hcell
    rw [assign_timetables_eq] at hcell
    rw [assign_schedule_eq]
    by_cases hkey : c' = c ∧ d' = d ∧ p' = p
    · rw [if_pos hkey] at hcell
      have hts : t' = t ∧ sub' = sub := by
        have h2 := hcell
        rw [Option.some.injEq, Prod.mk.injEq] at h2
        exact ⟨h2.1.symm, h2.2.symm⟩
      rw [if_pos ⟨hts.1, hkey.2.1, hkey.2.2⟩, hkey.1]
    · rw [if_neg hkey] at hcell
      have hsched := hW1 c' d' p' t' sub' hcell
      by_cases hkey2 : t' = t ∧ d' = d ∧ p' = p
      · exfalso
        rw [hkey2.1, hkey2.2.1, hkey2.2.2, hfree] at hsched
        cases hsched
      · rw [if_neg hkey2]
        exact hsched
  · intro t' d' p' hge
    rw [assign_schedule_eq, if_neg (fun hk => by omega)]
    exact hRange t' d' p' hge
  · intro t' d'
    rw [assign_load_eq]
    by_cases hkey : t' = t ∧ d' = d
    · rw [if_pos hkey]
      have := available_load_lt cfg s t d p hav
      omega
    · rw [if_neg hkey]
      exact hInv2 t' d'
  · unfold Inv3 at hInv3 ⊢
    by_cases hadj : cfg.allow_adjacent = true
    swap
    · have hadjf : cfg.allow_adjacent = false := by simpa using hadj
      rw [if_neg hadj] at hInv3 ⊢
      intro t' d' q
      by_cases hrow : t' = t ∧ d' = d
      · rw [hrow.1, hrow.2]
        have hstrict := available_strict_neighbors cfg s t d p hadjf hav
        rw [assign_row_occ, assign_row_occ]
        refine NoAdjacent_insert (fun q => (s.teacher_schedule t d q).isSome) p
          (hInv3 t d) ?_ ?_ q
        · intro q' hq'
          show (s.teacher_schedule t d q').isSome = false
          rw [hstrict.1 q' hq']
          rfl
        · show (s.teacher_schedule t d (p + 1)).isSome = false
          by_cases hpl : p < cfg.periods_per_day - 1
          · rw [hstrict.2 hpl]
            rfl
          · rw [hRange t d (p + 1) (by omega)]
            rfl
      · rw [assign_row_other s t c d p sub t' d' q hrow,
          assign_row_other s t c d p sub t' d' (q + 1) hrow]
        exact hInv3 t' d' q
    · rw [if_pos hadj] at hInv3 ⊢
      intro t' d'
      by_cases hrow : t' = t ∧ d' = d
      · rw [hrow.1, hrow.2]
        have hfun : (fun q => ((assign_teacher_to_slot s t c d p sub).teacher_schedule
            t d q).isSome)
            = (fun q => if q = p then true else (s.teacher_schedule t d q).isSome) :=
          funext (assign_row_occ s t c d p sub)
        rw [hfun]
        have hcount := available_count_le cfg s t d p hadj hav
        unfold count_consecutive_periods at hcount
        refine NoRun_insert _ cfg.max_consecutive p (countBack s t d p)
          (countFwdAux (fun q => (s.teacher_schedule t d q).isSome) (p + 1)
            (cfg.periods_per_day - (p + 1)))
          (hInv3 t d) (by omega) (countBack_le s t d p)
          (countBack_boundary s t d p) ?_
        rcases countFwdAux_boundary (fun q => (s.teacher_schedule t d q).isSome)
            (cfg.periods_per_day - (p + 1)) (p + 1) with hl | hr
        · exact hl
        · have hge : cfg.periods_per_day ≤ p + 1
              + countFwdAux (fun q => (s.teacher_schedule t d q).isSome) (p + 1)
                (cfg.periods_per_day - (p + 1)) := by omega
          show (s.teacher_schedule t d (p + 1
            + countFwdAux (fun q => (s.teacher_schedule t d q).isSome) (p + 1)
              (cfg.periods_per_day - (p + 1)))).isSome = false
          rw [hRange t d _ hge]
          rfl
      · have hfun : (fun q => ((assign_teacher_to_slot s t c d p sub).teacher_schedule
            t' d' q).isSome) = (fun q => (s.teacher_schedule t' d' q).isSome) :=
          funext (fun q => by rw [assign_row_other s t c d p sub t' d' q hrow])
        rw [hfun]
        exact hInv3 t' d'

theorem remove_preserves_Wf (cfg : Config) (s : State) (t c : String) (d p : Nat)
    (sub : String) (hcell : s.timetables c d p = some (t, sub)) (hwf : Wf cfg s) :
    Wf cfg (remove_teacher_from_slot s t c d p sub) := by
  obtain ⟨hW1, hRange, hInv2, hInv3⟩ := hwf
  have hsched : s.teacher_schedule t d p = some c := hW1 c d p t sub hcell
  refine ⟨?_, ?_, ?_, ?_⟩
  · intro c' d' p' t' sub' hcell'
    rw [remove_timetables_eq] at hcell'
    by_cases hkey : c' = c ∧ d' = d ∧ p' = p
    · rw [if_pos hkey] at hcell'
      cases hcell'
    · rw [if_neg hkey] at hcell'
      have hs := hW1 c' d' p' t' sub' hcell'
      rw [remove_schedule_eq]
      by_cases hkey2 : t' = t ∧ d' = d ∧ p' = p
      · exfalso
        rw [hkey2.1, hkey2.2.1, hkey2.2.2, hsched] at hs
        rw [Option.some.injEq] at hs
        exact hkey ⟨hs.symm, hkey2.2.1, hkey2.2.2⟩
      · rw [if_neg hkey2]
        exact hs
  · intro t' d' p' hge
    rw [remove_schedule_eq]
    by_cases hkey : t' = t ∧ d' = d ∧ p' = p
    · rw [if_pos hkey]
    · rw [if_neg hkey]
      exact hRange t' d' p' hge
  · intro t' d'
    rw [remove_load_eq]
    by_cases hkey : t' = t ∧ d' = d
    · rw [if_pos hkey]
      have := hInv2 t d
      omega
    · rw [if_neg hkey]
      exact hInv2 t' d'
  · unfold Inv3 at hInv3 ⊢
    by_cases hadj : cfg.allow_adjacent = true
    · rw [if_pos hadj] at hInv3 ⊢
      intro t' d'
      exact NoRun_mono _ _ _ (fun q => remove_row_mono s t c d p sub t' d' q) (hInv3 t' d')
    · rw [if_neg hadj] at hInv3 ⊢
      intro t' d' q
      rintro ⟨h1, h2⟩
      exact hInv3 t' d' q ⟨remove_row_mono s t c d p sub t' d' q h1,
        remove_row_mono s t c d p sub t' d' (q + 1) h2⟩

theorem Wf_reset (cfg : Config) : Wf cfg (reset_data_structures cfg) := by
  refine ⟨?_, ?_, ?_, ?_⟩
  · intro c d p t sub h
    cases h
  · intro t d p hge
    rfl
  · intro t d
    exact Int.natCast_nonneg cfg.max_daily_load
  · unfold Inv3
    by_cases hadj : cfg.allow_adjacent = true
    · rw [if_pos hadj]
      intro t d start
      exact ⟨0, Nat.zero_le _, rfl⟩
    · rw [if_neg hadj]
      intro t d p
      rintro ⟨h1, -⟩
      exact absurd h1 (by simp [reset_data_structures])

theorem Inv4_reset (cfg : Config) : Inv4 cfg (reset_data_structures cfg) := by
  intro c hc sub hsub
  exact Int.natCast_nonneg (cfg.subject_periods sub)

theorem claimed_of_Wf_Inv4 (cfg : Config) (s : State) (hwf : Wf cfg s)
    (h4 : Inv4 cfg s) : ClaimedInvariants cfg s := by
  obtain ⟨hW1, hRange, hInv2, hInv3⟩ := hwf
  refine ⟨?_, hInv2, ?_, h4⟩
  · intro c1 c2 d p t s1 s2 h1 h2
    have e1 := hW1 c1 d p t s1 h1
    have e2 := hW1 c2 d p t s2 h2
    rw [e1, Option.some.injEq] at e2
    exact e2
  · unfold Inv3 at hInv3
    by_cases hadj : cfg.allow_adjacent = true
    · rw [if_pos hadj] at hInv3
      rw [if_pos hadj]
      intro t d start hlt
      exact hInv3 t d start
    · rw [if_neg hadj] at hInv3
      rw [if_neg hadj]
      exact hInv3
theorem tryAssignSlots_some (cfg : Config) (ρ : Rand) (c sub : String) :
    ∀ (slots : List (Nat × Nat)) (s : State) (k : Nat) (s' : State),
      (tryAssignSlots cfg ρ c sub slots s k).1 = some s' →
      ∃ t d p, is_teacher_available cfg s t d p = true ∧ (d, p) ∈ slots
        ∧ s' = assign_teacher_to_slot s t c d p sub := by
  intro slots
  induction slots with
  | nil => intro s k s' h; cases h
  | cons dp rest ih =>
      intro s k s' h
      obtain ⟨d, p⟩ := dp
      simp only [tryAssignSlots] at h
      cases hr : (get_available_teachers_ranked cfg s d p ρ k).1 with
      | nil =>
          rw [hr] at h
          obtain ⟨t, d', p', hav, hmem, heq⟩ :=
            ih s (get_available_teachers_ranked cfg s d p ρ k).2 s' h
          exact ⟨t, d', p', hav, List.mem_cons_of_mem _ hmem, heq⟩
      | cons t ts =>
          rw [hr] at h
          simp only [Option.some.injEq] at h
          refine ⟨t, d, p, ?_, List.mem_cons_self _ _, h.symm⟩
          exact (mem_available_teachers cfg s d p ρ k t (hr ▸ List.mem_cons_self t ts)).1

theorem processUnits_Wf (cfg : Config) (ρ : Rand) :
    ∀ (units : List (String × String)) (s : State) (k : Nat) (un : List (String × String)),
      Wf cfg s → Wf cfg (processUnits cfg ρ units s k un).1 := by
  intro units
  induction units with
  | nil => intro s k un hwf; exact hwf
  | cons csub rest ih =>
      intro s k un hwf
      obtain ⟨c, sub⟩ := csub
      simp only [processUnits]
      set sl := sortDescPerturbed (fun dp => calculate_slot_score cfg s dp.1 dp.2) 5 ρ k
        (emptySlots cfg s c) with hsl
      rcases htry : tryAssignSlots cfg ρ c sub sl.1 s sl.2 with ⟨opt, k2⟩
      cases opt with
      | none => exact ih s k2 (un ++ [(c, sub)]) hwf
      | some s' =>
          have hsome : (tryAssignSlots cfg ρ c sub sl.1 s sl.2).1 = some s' := by rw [htry]
          obtain ⟨t, d, p, hav, hmem, rfl⟩ :=
            tryAssignSlots_some cfg ρ c sub sl.1 s sl.2 s' hsome
          have hmem2 : (d, p) ∈ emptySlots cfg s c := by
            have hperm := sortDescPerturbed_perm
              (fun dp => calculate_slot_score cfg s dp.1 dp.2) 5 ρ k (emptySlots cfg s c)
            rw [← hsl] at hperm
            exact hperm.subset hmem
          have hp := (mem_emptySlots cfg s c (d, p) hmem2).2.1
          exact ih _ k2 un (assign_preserves_Wf cfg s t c d p sub hav hp hwf)

theorem processUnits_counts (cfg : Config) (ρ : Rand) :
    ∀ (units : List (String × String)) (s : State) (k : Nat) (un : List (String × String))
      (c' x : String),
      (processUnits cfg ρ units s k un).1.subject_counts c' x
        + (((processUnits cfg ρ units s k un).2.2).count (c', x) : Int)
      = s.subject_counts c' x + (un.count (c', x) : Int) + (units.count (c', x) : Int) := by
  intro units
  induction units with
  | nil =>
      intro s k un c' x
      simp [processUnits]
  | cons csub rest ih =>
      intro s k un c' x
      obtain ⟨c, sub⟩ := csub
      have hcount_cons : (((c, sub) :: rest).count (c', x) : Int)
          = (rest.count (c', x) : Int) + (if (c', x) = (c, sub) then 1 else 0) := by
        rw [List.count_cons]
        by_cases hcs : (c', x) = (c, sub)
        · rw [if_pos hcs, if_pos (by rw [beq_iff_eq]; exact hcs.symm)]
          push_cast
          ring
        · rw [if_neg hcs, if_neg (by rw [beq_iff_eq]; exact fun h => hcs h.symm)]
          push_cast
          ring
      simp only [processUnits]
      set sl := sortDescPerturbed (fun dp => calculate_slot_score cfg s dp.1 dp.2) 5 ρ k
        (emptySlots cfg s c) with hsl
      rcases htry : tryAssignSlots cfg ρ c sub sl.1 s sl.2 with ⟨opt, k2⟩
      cases opt with
      | none =>
          have hih := ih s k2 (un ++ [(c, sub)]) c' x
          have hun : ((un ++ [(c, sub)]).count (c', x) : Int)
              = (un.count (c', x) : Int) + (if (c', x) = (c, sub) then 1 else 0) := by
            rw [List.count_append]
            by_cases hcs : (c', x) = (c, sub)
            · rw [if_pos hcs]
              have : ([(c, sub)].count (c', x)) = 1 := by
                rw [List.count_singleton]
                rw [if_pos (by rw [beq_iff_eq]; exact hcs.symm)]
              rw [this]
              push_cast
              ring
            · rw [if_neg hcs]
              have : ([(c, sub)].count (c', x)) = 0 := by
                rw [List.count_singleton]
                rw [if_neg (by rw [beq_iff_eq]; exact fun h => hcs h.symm)]
              rw [this]
              push_cast
              ring
          show (processUnits cfg ρ rest s k2 (un ++ [(c, sub)])).1.subject_counts c' x
              + (((processUnits cfg ρ rest s k2 (un ++ [(c, sub)])).2.2).count (c', x) : Int)
            = s.subject_counts c' x + (un.count (c', x) : Int)
              + ((((c, sub) :: rest)).count (c', x) : Int)
          rw [hih, hcount_cons, hun]
          ring
      | some s' =>
          have hsome : (tryAssignSlots cfg ρ c sub sl.1 s sl.2).1 = some s' := by rw [htry]
          obtain ⟨t, d, p, hav, hmem, rfl⟩ :=
            tryAssignSlots_some cfg ρ c sub sl.1 s sl.2 s' hsome
          have hih := ih (assign_teacher_to_slot s t c d p sub) k2 un c' x
          show (processUnits cfg ρ rest (assign_teacher_to_slot s t c d p sub) k2 un).1.subject_counts c' x
              + (((processUnits cfg ρ rest (assign_teacher_to_slot s t c d p sub) k2 un).2.2).count (c', x) : Int)
            = s.subject_counts c' x + (un.count (c', x) : Int)
              + ((((c, sub) :: rest)).count (c', x) : Int)
          rw [hih, hcount_cons, assign_counts_eq]
          by_cases hcs : (c', x) = (c, sub)
          · have hc1 : c' = c := congrArg Prod.fst hcs
            have hc2 : x = sub := congrArg Prod.snd hcs
            rw [if_pos ⟨hc1, hc2⟩, if_pos hcs, hc1, hc2]
            ring
          · have hne : ¬ (c' = c ∧ x = sub) := by
              intro hand
              exact hcs (Prod.ext hand.1 hand.2)
            rw [if_neg hne, if_neg hcs]
            ring
theorem count_units_inner (cfg : Config) (c : String) :
    ∀ (subs : List String), subs.Nodup → ∀ (sub : String),
      ((subs.flatMap (fun sub' => List.replicate (cfg.subject_periods sub') (c, sub'))).count
          (c, sub))
        = if sub ∈ subs then cfg.subject_periods sub else 0 := by
  intro subs
  induction subs with
  | nil => intro hnd sub; simp
  | cons s0 rest ih =>
      intro hnd sub
      rw [List.flatMap_cons, List.count_append]
      rw [ih (List.Nodup.of_cons hnd) sub]
      by_cases hss : sub = s0
      · have hnotin : sub ∉ rest := by
          rw [hss]
          exact (List.nodup_cons.mp hnd).1
        rw [if_neg hnotin, if_pos (by rw [hss]; exact List.mem_cons_self s0 rest)]
        have : (List.replicate (cfg.subject_periods s0) (c, s0)).count (c, sub)
            = cfg.subject_periods sub := by
          rw [List.count_replicate, if_pos (by rw [beq_iff_eq, hss]), hss]
        omega
      · have : (List.replicate (cfg.subject_periods s0) (c, s0)).count (c, sub) = 0 := by
          rw [List.count_replicate, if_neg ?_]
          rw [beq_iff_eq]
          intro h
          exact hss (congrArg Prod.snd h).symm
        rw [this]
        by_cases hmem : sub ∈ rest
        · rw [if_pos hmem, if_pos (List.mem_cons_of_mem s0 hmem)]
          omega
        · rw [if_neg hmem, if_neg (by
            intro hmem2
            rcases List.mem_cons.mp hmem2 with h | h
            · exact hss h
            · exact hmem h)]
theorem count_units_other (cfg : Config) (c c' : String) (h : c' ≠ c)
    (subs : List String) (sub : String) :
    ((subs.flatMap (fun sub' => List.replicate (cfg.subject_periods sub') (c', sub'))).count
        (c, sub)) = 0 := by
  rw [List.count_eq_zero]
  intro hmem
  rw [List.mem_flatMap] at hmem
  obtain ⟨sub', -, hmem⟩ := hmem
  have := List.eq_of_mem_replicate hmem
  exact h (congrArg Prod.fst this).symm

theorem count_allRequiredAssignments (cfg : Config) (hsubs : cfg.subjects.Nodup)
    (c sub : String) (hs : sub ∈ cfg.subjects) :
    ∀ (cls : List String), cls.Nodup → c ∈ cls →
      ((cls.flatMap (fun c0 => cfg.subjects.flatMap
          (fun sub' => List.replicate (cfg.subject_periods sub') (c0, sub')))).count (c, sub))
        = cfg.subject_periods sub := by
  intro cls
  induction cls with
  | nil => intro hnd hc; cases hc
  | cons c0 rest ih =>
      intro hnd hc
      rw [List.flatMap_cons, List.count_append]
      by_cases hcc : c = c0
      · have hrest : ((rest.flatMap (fun c1 => cfg.subjects.flatMap
            (fun sub' => List.replicate (cfg.subject_periods sub') (c1, sub')))).count
              (c, sub)) = 0 := by
          rw [List.count_eq_zero]
          intro hmem
          rw [List.mem_flatMap] at hmem
          obtain ⟨c1, hc1, hmem⟩ := hmem
          rw [List.mem_flatMap] at hmem
          obtain ⟨sub', -, hmem⟩ := hmem
          have heq := List.eq_of_mem_replicate hmem
          have : c = c1 := congrArg Prod.fst heq
          rw [hcc] at this
          exact (List.nodup_cons.mp hnd).1 (this ▸ hc1)
        rw [hrest]
        have hinner := count_units_inner cfg c0 cfg.subjects hsubs sub
        rw [hcc, hinner, if_pos hs]
        omega
      · have hzero := count_units_other cfg c c0 (fun hh => hcc hh.symm) cfg.subjects sub
        rw [hzero]
        have hcrest : c ∈ rest := by
          rcases List.mem_cons.mp hc with h | h
          · exact absurd h hcc
          · exact h
        rw [ih (List.Nodup.of_cons hnd) hcrest]
        omega
theorem try_relocate_false_state (cfg : Config) (from_c : String) (fd fp : Nat)
    (target_c target_sub : String) (s : State) (ρ : Rand) (k : Nat)
    (hcons : ∀ t sub, s.timetables from_c fd fp = some (t, sub) →
      s.teacher_schedule t fd fp = some from_c) :
    ∀ s' k', try_relocate_assignment cfg from_c fd fp target_c target_sub s ρ k
        = (false, s', k') → s' = s := by
  intro s' k' heq
  unfold try_relocate_assignment at heq
  cases htt : s.timetables from_c fd fp with
  | none =>
      rw [htt] at heq
      cases heq
      rfl
  | some ts =>
      obtain ⟨t, sub⟩ := ts
      rw [htt] at heq
      simp only at heq
      by_cases hc : (cfg.teachers.any (fun t' => is_teacher_available cfg
            (remove_teacher_from_slot s t from_c fd fp sub) t' fd fp))
          ∧ (remove_teacher_from_slot s t from_c fd fp sub).timetables target_c fd fp = none
      · rw [if_pos hc] at heq
        have := relocDays_false_eq cfg ρ t from_c sub target_c target_sub fd fp
          (List.range cfg.days) (remove_teacher_from_slot s t from_c fd fp sub) _ s' k' heq
        rw [this]
        exact assign_remove_cancel s t from_c fd fp sub (hcons t sub htt) htt
      · rw [if_neg hc] at heq
        cases heq
        exact assign_remove_cancel s t from_c fd fp sub (hcons t sub htt) htt

theorem relocPeriods_success_spec (cfg : Config) (ρ : Rand)
    (t from_c sub target_c target_sub : String) (fd fp d : Nat)
    (hfp : fp < cfg.periods_per_day) :
    ∀ (ps : List Nat), (∀ p ∈ ps, p < cfg.periods_per_day) →
    ∀ (s : State) (k : Nat) (s' : State) (k' : Nat),
      relocPeriods cfg ρ t from_c sub target_c target_sub fd fp d ps s k = .success s' k' →
      Wf cfg s →
      Wf cfg s' ∧ (∀ c x, s'.subject_counts c x = s.subject_counts c x
        + (if c = from_c ∧ x = sub then 1 else 0)
        + (if c = target_c ∧ x = target_sub then 1 else 0)) := by
  intro ps
  induction ps with
  | nil => intro hrange s k s' k' h; cases h
  | cons p ps ih =>
      intro hrange s k s' k' h hwf
      simp only [relocPeriods] at h
      by_cases hc : s.timetables from_c d p = none ∧ is_teacher_available cfg s t d p = true
      · rw [if_pos hc] at h
        cases hl : (get_available_teachers_ranked cfg
            (assign_teacher_to_slot s t from_c d p sub) fd fp ρ k).1 with
        | nil => rw [hl] at h; cases h
        | cons t2 ts =>
            rw [hl] at h
            cases h
            have hp : p < cfg.periods_per_day := hrange p (List.mem_cons_self _ _)
            have hwf2 : Wf cfg (assign_teacher_to_slot s t from_c d p sub) :=
              assign_preserves_Wf cfg s t from_c d p sub hc.2 hp hwf
            have hav2 : is_teacher_available cfg (assign_teacher_to_slot s t from_c d p sub)
                t2 fd fp = true :=
              (mem_available_teachers cfg (assign_teacher_to_slot s t from_c d p sub) fd fp ρ k
                t2 (hl ▸ List.mem_cons_self t2 ts)).1
            refine ⟨assign_preserves_Wf cfg _ t2 target_c fd fp target_sub hav2 hfp hwf2, ?_⟩
            intro c x
            rw [assign_counts_eq]
            by_cases h2 : c = target_c ∧ x = target_sub
            · rw [if_pos h2, assign_counts_eq]
              by_cases hB : target_c = from_c ∧ target_sub = sub
              · have hC : c = from_c ∧ x = sub := ⟨h2.1.trans hB.1, h2.2.trans hB.2⟩
                rw [if_pos hB, if_pos hC]
                have hcc : s.subject_counts c x = s.subject_counts from_c sub := by
                  rw [h2.1, hB.1, h2.2, hB.2]
                rw [hcc, if_pos h2]
              · have hC : ¬ (c = from_c ∧ x = sub) := fun hC =>
                  hB ⟨h2.1.symm.trans hC.1, h2.2.symm.trans hC.2⟩
                rw [if_neg hB, if_neg hC]
                have hcc : s.subject_counts c x = s.subject_counts target_c target_sub := by
                  rw [h2.1, h2.2]
                rw [hcc, if_pos h2]
                ring
            · rw [if_neg h2, assign_counts_eq]
              by_cases hC : c = from_c ∧ x = sub
              · rw [if_pos hC, if_pos hC]
                have hcc : s.subject_counts c x = s.subject_counts from_c sub := by
                  rw [hC.1, hC.2]
                rw [hcc, if_neg h2]
                ring
              · rw [if_neg hC, if_neg hC, if_neg h2]
                ring
      · rw [if_neg hc] at h
        exact ih (fun q hq => hrange q (List.mem_cons_of_mem p hq)) s k s' k' h hwf

theorem relocDays_success_spec (cfg : Config) (ρ : Rand)
    (t from_c sub target_c target_sub : String) (fd fp : Nat)
    (hfp : fp < cfg.periods_per_day) :
    ∀ (ds : List Nat) (s : State) (k : Nat) (s' : State) (k' : Nat),
      relocDays cfg ρ t from_c sub target_c target_sub fd fp ds s k = (true, s', k') →
      Wf cfg s →
      Wf cfg s' ∧ (∀ c x, s'.subject_counts c x = s.subject_counts c x
        + (if c = from_c ∧ x = sub then 1 else 0)
        + (if c = target_c ∧ x = target_sub then 1 else 0)) := by
  intro ds
  induction ds with
  | nil => intro s k s' k' h; cases h
  | cons d ds ih =>
      intro s k s' k' h hwf
      simp only [relocDays] at h
      cases hstep : relocPeriods cfg ρ t from_c sub target_c target_sub fd fp d
          (List.range cfg.periods_per_day) s k with
      | success s2 k2 =>
          rw [hstep] at h
          cases h
          exact relocPeriods_success_spec cfg ρ t from_c sub target_c target_sub fd fp d hfp
            (List.range cfg.periods_per_day) (fun q hq => List.mem_range.mp hq)
            s k s' k' hstep hwf
      | next s2 k2 =>
          rw [hstep] at h
          have hs2 : s2 = s := relocPeriods_next_eq cfg ρ t from_c sub target_c target_sub
            fd fp d (List.range cfg.periods_per_day) s k s2 k2 hstep
          rw [hs2] at h
          exact ih s k2 s' k' h hwf

theorem try_relocate_true_spec (cfg : Config) (from_c : String) (fd fp : Nat)
    (target_c target_sub : String) (s : State) (ρ : Rand) (k : Nat)
    (hfp : fp < cfg.periods_per_day) (hwf : Wf cfg s) :
    ∀ s' k', try_relocate_assignment cfg from_c fd fp target_c target_sub s ρ k
        = (true, s', k') →
      Wf cfg s' ∧ (∀ c x, s'.subject_counts c x = s.subject_counts c x
        + (if c = target_c ∧ x = target_sub then 1 else 0)) := by
  intro s' k' heq
  unfold try_relocate_assignment at heq
  cases htt : s.timetables from_c fd fp with
  | none =>
      rw [htt] at heq
      cases heq
  | some ts =>
      obtain ⟨t, sub⟩ := ts
      rw [htt] at heq
      simp only at heq
      by_cases hc : (cfg.teachers.any (fun t' => is_teacher_available cfg
            (remove_teacher_from_slot s t from_c fd fp sub) t' fd fp))
          ∧ (remove_teacher_from_slot s t from_c fd fp sub).timetables target_c fd fp = none
      · rw [if_pos hc] at heq
        have hwf1 : Wf cfg (remove_teacher_from_slot s t from_c fd fp sub) :=
          remove_preserves_Wf cfg s t from_c fd fp sub htt hwf
        obtain ⟨hwf', hcounts⟩ := relocDays_success_spec cfg ρ t from_c sub target_c
          target_sub fd fp hfp (List.range cfg.days)
          (remove_teacher_from_slot s t from_c fd fp sub) _ s' k' heq hwf1
        refine ⟨hwf', ?_⟩
        intro c x
        rw [hcounts c x, remove_counts_eq]
        by_cases h1 : c = from_c ∧ x = sub
        · rw [if_pos h1, if_pos h1, h1.1, h1.2]
          ring
        · rw [if_neg h1, if_neg h1]
          ring
      · rw [if_neg hc] at heq
        cases heq
theorem tryDonors_spec (cfg : Config) (ρ : Rand) (target_c target_sub : String) :
    ∀ (ds : List (String × Nat × Nat)) (s : State) (k : Nat),
      (∀ cdp ∈ ds, cdp.2.2 < cfg.periods_per_day) → Wf cfg s →
      ∀ b s' k', tryDonors cfg ρ target_c target_sub ds s k = (b, s', k') →
        Wf cfg s' ∧ (b = false → s' = s)
        ∧ (b = true → ∀ c x, s'.subject_counts c x = s.subject_counts c x
            + (if c = target_c ∧ x = target_sub then 1 else 0)) := by
  intro ds
  induction ds with
  | nil =>
      intro s k hds hwf b s' k' h
      simp only [tryDonors] at h
      cases h
      exact ⟨hwf, fun _ => rfl, fun hb => absurd hb (by simp)⟩
  | cons cdp rest ih =>
      intro s k hds hwf b s' k' h
      obtain ⟨c0, d0, p0⟩ := cdp
      simp only [tryDonors] at h
      rcases htr : try_relocate_assignment cfg c0 d0 p0 target_c target_sub s ρ k
        with ⟨b1, s1, k1⟩
      rw [htr] at h
      cases b1 with
      | true =>
          simp only at h
          cases h
          have hfp : p0 < cfg.periods_per_day :=
            hds (c0, d0, p0) (List.mem_cons_self _ _)
          obtain ⟨hwf', hcounts⟩ := try_relocate_true_spec cfg c0 d0 p0 target_c target_sub
            s ρ k hfp hwf s' k' htr
          exact ⟨hwf', fun hb => absurd hb (by simp), fun _ => hcounts⟩
      | false =>
          simp only at h
          have hs1 : s1 = s := try_relocate_false_state cfg c0 d0 p0 target_c target_sub
            s ρ k (fun t sub hc => hwf.1 c0 d0 p0 t sub hc) s1 k1 htr
          rw [hs1] at h
          exact ih s k1 (fun cdp hm => hds cdp (List.mem_cons_of_mem _ hm)) hwf b s' k' h

theorem resolveAttempts_spec (cfg : Config) (ρ : Rand) (c sub : String) :
    ∀ (n : Nat) (s : State) (k : Nat), Wf cfg s →
      ∀ b s' k', resolveAttempts cfg ρ c sub n s k = (b, s', k') →
        Wf cfg s' ∧ (b = false → s' = s)
        ∧ (b = true → ∀ c' x, s'.subject_counts c' x = s.subject_counts c' x
            + (if c' = c ∧ x = sub then 1 else 0)) := by
  intro n
  induction n with
  | zero =>
      intro s k hwf b s' k' h
      simp only [resolveAttempts] at h
      cases h
      exact ⟨hwf, fun _ => rfl, fun hb => absurd hb (by simp)⟩
  | succ n ih =>
      intro s k hwf b s' k' h
      simp only [resolveAttempts] at h
      by_cases hcands : filledTriples cfg s = []
      · rw [if_pos hcands] at h
        cases h
        exact ⟨hwf, fun _ => rfl, fun hb => absurd hb (by simp)⟩
      · rw [if_neg hcands] at h
        have hrange : ∀ cdp ∈ ((shuffleR ρ k (filledTriples cfg s)).1.take 20),
            cdp.2.2 < cfg.periods_per_day := by
          intro cdp hm
          have hm2 : cdp ∈ (shuffleR ρ k (filledTriples cfg s)).1 :=
            List.take_subset 20 _ hm
          have hm3 : cdp ∈ filledTriples cfg s :=
            (shuffleR_perm ρ k (filledTriples cfg s)).subset hm2
          exact (mem_filledTriples cfg s cdp hm3).2.2
        rcases htd : tryDonors cfg ρ c sub ((shuffleR ρ k (filledTriples cfg s)).1.take 20)
            s (shuffleR ρ k (filledTriples cfg s)).2 with ⟨b1, s1, k1⟩
        rw [htd] at h
        cases b1 with
        | true =>
            simp only at h
            cases h
            obtain ⟨hwf', -, hcounts⟩ := tryDonors_spec cfg ρ c sub _ s _ hrange hwf
              true s' k' htd
            exact ⟨hwf', fun hb => absurd hb (by simp), fun _ => hcounts rfl⟩
        | false =>
            simp only at h
            obtain ⟨-, hrestore, -⟩ := tryDonors_spec cfg ρ c sub _ s _ hrange hwf
              false s1 k1 htd
            rw [hrestore rfl] at h
            exact ih s k1 hwf b s' k' h
theorem resolve_spec (cfg : Config) (ρ : Rand) :
    ∀ (pending live : List (String × String)) (s : State) (k : Nat),
      Wf cfg s → (∀ cs : String × String, pending.count cs ≤ live.count cs) →
      Wf cfg (resolve_unassigned_with_swapping cfg ρ pending live s k).2.1
      ∧ (∀ cs : String × String,
          (resolve_unassigned_with_swapping cfg ρ pending live s k).2.1.subject_counts
              cs.1 cs.2
            + (((resolve_unassigned_with_swapping cfg ρ pending live s k).1).count cs : Int)
          = s.subject_counts cs.1 cs.2 + (live.count cs : Int)) := by
  intro pending
  induction pending with
  | nil =>
      intro live s k hwf hsub
      exact ⟨hwf, fun cs => rfl⟩
  | cons csub rest ih =>
      intro live s k hwf hsub
      obtain ⟨c, sub⟩ := csub
      simp only [resolve_unassigned_with_swapping]
      rcases hra : resolveAttempts cfg ρ c sub 100 s k with ⟨b, s1, k1⟩
      cases b with
      | false =>
          obtain ⟨hwf1, hrestore, -⟩ := resolveAttempts_spec cfg ρ c sub 100 s k hwf
            false s1 k1 hra
          rw [hrestore rfl]
          refine ih live s k1 hwf ?_
          intro cs
          have := hsub cs
          rw [List.count_cons] at this
          omega
      | true =>
          obtain ⟨hwf1, -, hcounts⟩ := resolveAttempts_spec cfg ρ c sub 100 s k hwf
            true s1 k1 hra
          have hmem : (c, sub) ∈ live := by
            have h1 := hsub (c, sub)
            rw [List.count_cons, if_pos (by rw [beq_iff_eq])] at h1
            have : 0 < live.count (c, sub) := by omega
            exact List.count_pos_iff_mem.mp this
          have hsub' : ∀ cs : String × String, rest.count cs ≤ (live.erase (c, sub)).count cs := by
            intro cs
            by_cases hcs : cs = (c, sub)
            · rw [hcs, List.count_erase_self]
              have := hsub (c, sub)
              rw [List.count_cons, if_pos (by rw [beq_iff_eq])] at this
              omega
            · rw [List.count_erase_of_ne hcs]
              have := hsub cs
              rw [List.count_cons, if_neg (by rw [beq_iff_eq]; exact fun h => hcs h.symm)] at this
              omega
          obtain ⟨hwfr, hcr⟩ := ih (live.erase (c, sub)) s1 k1 hwf1 hsub'
          refine ⟨hwfr, ?_⟩
          intro cs
          rw [hcr cs, hcounts rfl cs.1 cs.2]
          by_cases hcs : cs = (c, sub)
          · have hc1 : cs.1 = c := congrArg Prod.fst hcs
            have hc2 : cs.2 = sub := congrArg Prod.snd hcs
            rw [if_pos ⟨hc1, hc2⟩, hcs, List.count_erase_self]
            have hpos : 1 ≤ live.count (c, sub) := by
              have := hsub (c, sub)
              rw [List.count_cons, if_pos (by rw [beq_iff_eq])] at this
              omega
            have : ((live.count (c, sub) - 1 : Nat) : Int) = (live.count (c, sub) : Int) - 1 := by
              omega
            rw [this]
            ring
          · have hne : ¬ (cs.1 = c ∧ cs.2 = sub) := by
              intro hand
              exact hcs (Prod.ext hand.1 hand.2)
            rw [if_neg hne, List.count_erase_of_ne hcs]
            ring
theorem count_perm_beq {α : Type} [BEq α] {l₁ l₂ : List α} (h : l₁.Perm l₂)
    (a : α) : l₁.count a = l₂.count a := h.countP_eq _

theorem greedy_state_Wf (cfg : Config) (ρ : Rand) (k : Nat) :
    Wf cfg (generate_timetable_smart_greedy cfg ρ k).2.2.1 := by
  set pr := processUnits cfg ρ (greedyOrder cfg ρ k).1
    (reset_data_structures cfg) (greedyOrder cfg ρ k).2 [] with hprdef
  have hwf1 : Wf cfg pr.1 :=
    processUnits_Wf cfg ρ (greedyOrder cfg ρ k).1
      (reset_data_structures cfg) (greedyOrder cfg ρ k).2 [] (Wf_reset cfg)
  have hres := resolve_spec cfg ρ pr.2.2 pr.2.2 pr.1 pr.2.1 hwf1 (fun cs => le_refl _)
  show Wf cfg (resolve_unassigned_with_swapping cfg ρ pr.2.2 pr.2.2 pr.1 pr.2.1).2.1
  exact hres.1

theorem greedy_accounting (cfg : Config) (ρ : Rand) (k : Nat)
    (hcls : cfg.classrooms.Nodup) (hsubs : cfg.subjects.Nodup)
    (c : String) (hc : c ∈ cfg.classrooms) (sub : String) (hs : sub ∈ cfg.subjects) :
    (generate_timetable_smart_greedy cfg ρ k).2.2.1.subject_counts c sub
        + (((generate_timetable_smart_greedy cfg ρ k).2.1).count (c, sub) : Int)
      = (cfg.subject_periods sub : Int) := by
  have hperm : ((greedyOrder cfg ρ k).1).Perm (allRequiredAssignments cfg) :=
    sortDescPerturbed_perm _ 5 ρ k _
  have hqc : ((greedyOrder cfg ρ k).1).count (c, sub) = cfg.subject_periods sub :=
    (count_perm_beq hperm (c, sub)).trans
      (count_allRequiredAssignments cfg hsubs c sub hs cfg.classrooms hcls hc)
  set pr := processUnits cfg ρ (greedyOrder cfg ρ k).1
    (reset_data_structures cfg) (greedyOrder cfg ρ k).2 [] with hprdef
  have hc1 := processUnits_counts cfg ρ (greedyOrder cfg ρ k).1
    (reset_data_structures cfg) (greedyOrder cfg ρ k).2 [] c sub
  rw [← hprdef] at hc1
  rw [hqc] at hc1
  have hz : (reset_data_structures cfg).subject_counts c sub = 0 := rfl
  rw [hz] at hc1
  simp only [List.count_nil] at hc1
  have hwf1 : Wf cfg pr.1 :=
    processUnits_Wf cfg ρ (greedyOrder cfg ρ k).1
      (reset_data_structures cfg) (greedyOrder cfg ρ k).2 [] (Wf_reset cfg)
  have hres := resolve_spec cfg ρ pr.2.2 pr.2.2 pr.1 pr.2.1 hwf1 (fun cs => le_refl _)
  have heq := hres.2 (c, sub)
  dsimp only at heq
  show (resolve_unassigned_with_swapping cfg ρ pr.2.2 pr.2.2 pr.1 pr.2.1).2.1.subject_counts
        c sub
      + (((resolve_unassigned_with_swapping cfg ρ pr.2.2 pr.2.2 pr.1 pr.2.1).1).count
          (c, sub) : Int)
    = (cfg.subject_periods sub : Int)
  omega

/-- C6: after the greedy construction phase followed by the repair pass,
for every classroom and subject the fulfillment count plus the number of
still-unresolved demand units for that pair equals the subject's quota
exactly; in particular the fulfillment count never exceeds the quota. -/
theorem greedy_counts_exact (cfg : Config) (ρ : Rand) (k : Nat)
    (hcls : cfg.classrooms.Nodup) (hsubs : cfg.subjects.Nodup)
    (c : String) (hc : c ∈ cfg.classrooms) (sub : String) (hs : sub ∈ cfg.subjects) :
    (generate_timetable_smart_greedy cfg ρ k).2.2.1.subject_counts c sub
        + (((generate_timetable_smart_greedy cfg ρ k).2.1).count (c, sub) : Int)
      = (cfg.subject_periods sub : Int)
    ∧ (generate_timetable_smart_greedy cfg ρ k).2.2.1.subject_counts c sub
        ≤ (cfg.subject_periods sub : Int) := by
  have heq := greedy_accounting cfg ρ k hcls hsubs c hc sub hs
  exact ⟨heq, by omega⟩

/-- Witness for C6: at the one-teacher, one-subject configuration the
greedy pass fulfils the single demand unit and the accounting identity
holds concretely. -/
theorem greedy_counts_exact_witness :
    cfgTiny.classrooms.Nodup ∧ cfgTiny.subjects.Nodup
    ∧ "A" ∈ cfgTiny.classrooms ∧ "S" ∈ cfgTiny.subjects
    ∧ ((generate_timetable_smart_greedy cfgTiny rhoZero 0).2.2.1.subject_counts "A" "S"
          + (((generate_timetable_smart_greedy cfgTiny rhoZero 0).2.1).count ("A", "S") : Int)
        = (cfgTiny.subject_periods "S" : Int)
      ∧ (generate_timetable_smart_greedy cfgTiny rhoZero 0).2.2.1.subject_counts "A" "S"
          ≤ (cfgTiny.subject_periods "S" : Int)) :=
  ⟨by decide, by decide, by decide, by decide,
    greedy_counts_exact cfgTiny rhoZero 0 (by decide) (by decide) "A" (by decide) "S"
      (by decide)⟩
theorem Inv4_assign (cfg : Config) (s : State) (t c : String) (d p : Nat) (sub : String)
    (h4 : Inv4 cfg s) (hlt : s.subject_counts c sub < (cfg.subject_periods sub : Int)) :
    Inv4 cfg (assign_teacher_to_slot s t c d p sub) := by
  intro c' hc' sub' hs'
  rw [assign_counts_eq]
  by_cases hkey : c' = c ∧ sub' = sub
  · rw [if_pos hkey, hkey.2]
    omega
  · rw [if_neg hkey]
    exact h4 c' hc' sub' hs'

theorem tryPairs_invariant (cfg : Config) (c : String) (d p : Nat)
    (r : State → Nat → Bool × State × Nat) (G : State → Prop)
    (hr : ∀ s1 k1, G s1 → Wf cfg s1 → Inv4 cfg s1 →
      Wf cfg (r s1 k1).2.1 ∧ Inv4 cfg (r s1 k1).2.1
      ∧ ((r s1 k1).1 = false → (r s1 k1).2.1 = s1))
    (hG : ∀ s1 t sub, G s1 → G (assign_teacher_to_slot s1 t c d p sub))
    (hp : p < cfg.periods_per_day) :
    ∀ (pairs : List (String × String)) (s : State) (k : Nat),
      G s → Wf cfg s → Inv4 cfg s → s.timetables c d p = none →
      (∀ ts ∈ pairs, is_teacher_available cfg s ts.1 d p = true
        ∧ s.subject_counts c ts.2 < (cfg.subject_periods ts.2 : Int)) →
      Wf cfg (tryPairs cfg c d p r pairs s k).2.1
      ∧ Inv4 cfg (tryPairs cfg c d p r pairs s k).2.1
      ∧ ((tryPairs cfg c d p r pairs s k).1 = false
          → (tryPairs cfg c d p r pairs s k).2.1 = s) := by
  intro pairs
  induction pairs with
  | nil =>
      intro s k hGs hwf h4 hcell hps
      exact ⟨hwf, h4, fun _ => rfl⟩
  | cons ts rest ih =>
      intro s k hGs hwf h4 hcell hps
      obtain ⟨t, sub⟩ := ts
      have hav := (hps (t, sub) (List.mem_cons_self _ _)).1
      have hlt := (hps (t, sub) (List.mem_cons_self _ _)).2
      have hwf' := assign_preserves_Wf cfg s t c d p sub hav hp hwf
      have h4' := Inv4_assign cfg s t c d p sub h4 hlt
      have hG' := hG s t sub hGs
      obtain ⟨hw2, h42, hres2⟩ := hr (assign_teacher_to_slot s t c d p sub) k hG' hwf' h4'
      have hstep : tryPairs cfg c d p r ((t, sub) :: rest) s k
          = match r (assign_teacher_to_slot s t c d p sub) k with
            | (true, s2, k2) => (true, s2, k2)
            | (false, s2, k2) =>
                tryPairs cfg c d p r rest (remove_teacher_from_slot s2 t c d p sub) k2 := rfl
      rcases hrec : r (assign_teacher_to_slot s t c d p sub) k with ⟨b, s2, k2⟩
      rw [hrec] at hstep hw2 h42 hres2
      cases b with
      | true =>
          dsimp only at hstep
          rw [hstep]
          exact ⟨hw2, h42, fun h => absurd h (by simp)⟩
      | false =>
          dsimp only at hstep
          have hs2 : s2 = assign_teacher_to_slot s t c d p sub := hres2 rfl
          have hsched : s.teacher_schedule t d p = none :=
            available_schedule_none cfg s t d p hav
          have hcancel : remove_teacher_from_slot s2 t c d p sub = s := by
            rw [hs2]
            exact remove_assign_cancel s t c d p sub hsched hcell
          rw [hstep, hcancel]
          exact ih s k2 hGs hwf h4 hcell
            (fun ts' hm => hps ts' (List.mem_cons_of_mem _ hm))

theorem backtrack_solve_invariant (cfg : Config) (ρ : Rand) :
    ∀ (slots : List (String × Nat × Nat)) (s : State) (k : Nat),
      slots.Nodup →
      (∀ cdp ∈ slots, cdp.2.2 < cfg.periods_per_day) →
      (∀ cdp ∈ slots, s.timetables cdp.1 cdp.2.1 cdp.2.2 = none) →
      Wf cfg s → Inv4 cfg s →
      Wf cfg (backtrack_solve cfg ρ slots s k).2.1
      ∧ Inv4 cfg (backtrack_solve cfg ρ slots s k).2.1
      ∧ ((backtrack_solve cfg ρ slots s k).1 = false
          → (backtrack_solve cfg ρ slots s k).2.1 = s) := by
  intro slots
  induction slots with
  | nil =>
      intro s k hnd hppd hempty hwf h4
      exact ⟨hwf, h4, fun _ => rfl⟩
  | cons cdp rest ih =>
      intro s k hnd hppd hempty hwf h4
      obtain ⟨c, d, p⟩ := cdp
      have hnotin : (c, d, p) ∉ rest := (List.nodup_cons.mp hnd).1
      have hndr : rest.Nodup := (List.nodup_cons.mp hnd).2
      have hppdr : ∀ cdp ∈ rest, cdp.2.2 < cfg.periods_per_day :=
        fun cdp hm => hppd cdp (List.mem_cons_of_mem _ hm)
      simp only [backtrack_solve]
      by_cases hns : (get_priority_subjects_ranked cfg s c ρ k).1 = []
      · rw [if_pos hns]
        exact ih s _ hndr hppdr
          (fun cdp hm => hempty cdp (List.mem_cons_of_mem _ hm)) hwf h4
      · rw [if_neg hns]
        by_cases hav : (get_available_teachers_ranked cfg s d p ρ
            (get_priority_subjects_ranked cfg s c ρ k).2).1 = []
        · rw [if_pos hav]
          exact ih s _ hndr hppdr
            (fun cdp hm => hempty cdp (List.mem_cons_of_mem _ hm)) hwf h4
        · rw [if_neg hav]
          have hp : p < cfg.periods_per_day := (hppd (c, d, p) (List.mem_cons_self _ _))
          have hGassign : ∀ (s1 : State) (t sub : String),
              (∀ cdp ∈ rest, s1.timetables cdp.1 cdp.2.1 cdp.2.2 = none) →
              ∀ cdp ∈ rest,
                (assign_teacher_to_slot s1 t c d p sub).timetables cdp.1 cdp.2.1 cdp.2.2
                  = none := by
            intro s1 t sub hG1 cdp2 hm
            rw [assign_timetables_eq]
            rw [if_neg ?_]
            · exact hG1 cdp2 hm
            · intro hkey
              apply hnotin
              have : cdp2 = (c, d, p) := by
                obtain ⟨c2, d2, p2⟩ := cdp2
                simp only at hkey
                rw [hkey.1, hkey.2.1, hkey.2.2]
              rw [← this]
              exact hm
          refine tryPairs_invariant cfg c d p
            (fun s' k' => backtrack_solve cfg ρ rest s' k')
            (fun s1 => ∀ cdp ∈ rest, s1.timetables cdp.1 cdp.2.1 cdp.2.2 = none)
            ?_ hGassign hp _ s _
            (fun cdp hm => hempty cdp (List.mem_cons_of_mem _ hm)) hwf h4
            (hempty (c, d, p) (List.mem_cons_self _ _)) ?_
          · intro s1 k1 hG1 hwf1 h41
            exact ih s1 k1 hndr hppdr hG1 hwf1 h41
          · intro ts hm
            rw [List.mem_flatMap] at hm
            obtain ⟨t, ht, hm⟩ := hm
            rw [List.mem_map] at hm
            obtain ⟨sub, hsub, heq⟩ := hm
            cases heq
            refine ⟨(mem_available_teachers cfg s d p ρ _ t ht).1, ?_⟩
            exact (mem_priority_subjects cfg s c ρ k sub hsub).1
theorem greedy_Inv4 (cfg : Config) (ρ : Rand) (k : Nat)
    (hcls : cfg.classrooms.Nodup) (hsubs : cfg.subjects.Nodup) :
    Inv4 cfg (generate_timetable_smart_greedy cfg ρ k).2.2.1 := by
  intro c hc sub hs
  have := greedy_accounting cfg ρ k hcls hsubs c hc sub hs
  omega

theorem greedy_claimed (cfg : Config) (ρ : Rand) (k : Nat)
    (hcls : cfg.classrooms.Nodup) (hsubs : cfg.subjects.Nodup) :
    ClaimedInvariants cfg (generate_timetable_smart_greedy cfg ρ k).2.2.1 :=
  claimed_of_Wf_Inv4 cfg _ (greedy_state_Wf cfg ρ k) (greedy_Inv4 cfg ρ k hcls hsubs)

theorem backtracking_claimed (cfg : Config) (ρ : Rand) (hcls : cfg.classrooms.Nodup)
    (s0 : State) (k0 : Nat) (hwf : Wf cfg s0) (h4 : Inv4 cfg s0)
    (hempty : ∀ c d p, s0.timetables c d p = none) :
    ClaimedInvariants cfg (solve_with_backtracking cfg s0 ρ k0).2.1 := by
  have hperm : ((shuffleR ρ k0 (allSlotTriples cfg)).1).Perm (allSlotTriples cfg) :=
    shuffleR_perm ρ k0 _
  have hnd : ((shuffleR ρ k0 (allSlotTriples cfg)).1).Nodup :=
    hperm.nodup_iff.mpr (allSlotTriples_nodup cfg hcls)
  have hppd : ∀ cdp ∈ (shuffleR ρ k0 (allSlotTriples cfg)).1,
      cdp.2.2 < cfg.periods_per_day :=
    fun cdp hm => (mem_allSlotTriples cfg cdp (hperm.subset hm)).2.2
  have hbs := backtrack_solve_invariant cfg ρ (shuffleR ρ k0 (allSlotTriples cfg)).1 s0
    (shuffleR ρ k0 (allSlotTriples cfg)).2 hnd hppd
    (fun cdp _ => hempty cdp.1 cdp.2.1 cdp.2.2) hwf h4
  show ClaimedInvariants cfg
    (backtrack_solve cfg ρ (shuffleR ρ k0 (allSlotTriples cfg)).1 s0
      (shuffleR ρ k0 (allSlotTriples cfg)).2).2.1
  exact claimed_of_Wf_Inv4 cfg _ hbs.1 hbs.2.1

theorem genAttempts_claimed (cfg : Config) (ρ : Rand)
    (hcls : cfg.classrooms.Nodup) (hsubs : cfg.subjects.Nodup) :
    ∀ (n k : Nat), ClaimedInvariants cfg (genAttempts cfg ρ n k).2.1 := by
  intro n
  induction n with
  | zero =>
      intro k
      exact backtracking_claimed cfg ρ hcls (reset_data_structures cfg) k (Wf_reset cfg)
        (Inv4_reset cfg) (fun c d p => rfl)
  | succ n ih =>
      intro k
      have hstep : genAttempts cfg ρ (n + 1) k
          = if (generate_timetable_smart_greedy cfg ρ k).1 = true
            then (true, (generate_timetable_smart_greedy cfg ρ k).2.2.1,
              (generate_timetable_smart_greedy cfg ρ k).2.2.2)
            else genAttempts cfg ρ n (generate_timetable_smart_greedy cfg ρ k).2.2.2 := rfl
      rw [hstep]
      by_cases hg : (generate_timetable_smart_greedy cfg ρ k).1 = true
      · rw [if_pos hg]
        exact greedy_claimed cfg ρ k hcls hsubs
      · rw [if_neg hg]
        exact ih _

/-- C2: after every completed top-level operation — the greedy construction
together with its repair pass, the backtracking solve (from any well-formed
fully empty grid, in particular the reset state it is invoked on), and the
full iterative orchestration — the schedule state satisfies all four data-
model invariants: no teacher in two classrooms at one (day, period), daily
loads within max_daily_load, the mode-dependent consecutive-run/adjacency
bound, and no fulfillment count above its quota. -/
theorem scheduler_invariants (cfg : Config) (ρ : Rand) (k : Nat)
    (hcls : cfg.classrooms.Nodup) (hsubs : cfg.subjects.Nodup) :
    ClaimedInvariants cfg (generate_timetable_smart_greedy cfg ρ k).2.2.1
    ∧ (∀ (s0 : State) (k0 : Nat), Wf cfg s0 → Inv4 cfg s0 →
        (∀ c d p, s0.timetables c d p = none) →
        ClaimedInvariants cfg (solve_with_backtracking cfg s0 ρ k0).2.1)
    ∧ ClaimedInvariants cfg (generate_timetable_iterative cfg ρ k).2.1 :=
  ⟨greedy_claimed cfg ρ k hcls hsubs,
    fun s0 k0 hwf h4 he => backtracking_claimed cfg ρ hcls s0 k0 hwf h4 he,
    genAttempts_claimed cfg ρ hcls hsubs 5 k⟩

/-- Witness for C2: the invariants hold concretely after each top-level
operation on the one-teacher, one-subject configuration. -/
theorem scheduler_invariants_witness :
    cfgTiny.classrooms.Nodup ∧ cfgTiny.subjects.Nodup
    ∧ (ClaimedInvariants cfgTiny (generate_timetable_smart_greedy cfgTiny rhoZero 0).2.2.1
      ∧ (∀ (s0 : State) (k0 : Nat), Wf cfgTiny s0 → Inv4 cfgTiny s0 →
          (∀ c d p, s0.timetables c d p = none) →
          ClaimedInvariants cfgTiny (solve_with_backtracking cfgTiny s0 rhoZero k0).2.1)
      ∧ ClaimedInvariants cfgTiny (generate_timetable_iterative cfgTiny rhoZero 0).2.1) :=
  ⟨by decide, by decide, scheduler_invariants cfgTiny rhoZero 0 (by decide) (by decide)⟩
theorem available_ranked_nil (cfg : Config) (s : State) (d p : Nat) (ρ : Rand) (k : Nat)
    (h : cfg.teachers = []) : (get_available_teachers_ranked cfg s d p ρ k).1 = [] := by
  unfold get_available_teachers_ranked
  rw [h]
  rfl

theorem tryAssignSlots_none_of_no_teachers (cfg : Config) (ρ : Rand) (c sub : String)
    (h : cfg.teachers = []) :
    ∀ (slots : List (Nat × Nat)) (s : State) (k : Nat),
      (tryAssignSlots cfg ρ c sub slots s k).1 = none := by
  intro slots
  induction slots with
  | nil => intro s k; rfl
  | cons dp rest ih =>
      intro s k
      obtain ⟨d, p⟩ := dp
      simp only [tryAssignSlots]
      rw [available_ranked_nil cfg s d p ρ k h]
      exact ih s _

theorem processUnits_no_teachers (cfg : Config) (ρ : Rand) (h : cfg.teachers = []) :
    ∀ (units : List (String × String)) (s : State) (k : Nat) (un : List (String × String)),
      (processUnits cfg ρ units s k un).1 = s
      ∧ (processUnits cfg ρ units s k un).2.2 = un ++ units := by
  intro units
  induction units with
  | nil => intro s k un; exact ⟨rfl, (List.append_nil un).symm⟩
  | cons csub rest ih =>
      intro s k un
      obtain ⟨c, sub⟩ := csub
      simp only [processUnits]
      set sl := sortDescPerturbed (fun dp => calculate_slot_score cfg s dp.1 dp.2) 5 ρ k
        (emptySlots cfg s c) with hsl
      rcases htry : tryAssignSlots cfg ρ c sub sl.1 s sl.2 with ⟨opt, k2⟩
      cases opt with
      | some s' =>
          exfalso
          have := tryAssignSlots_none_of_no_teachers cfg ρ c sub h sl.1 s sl.2
          rw [htry] at this
          cases this
      | none =>
          obtain ⟨h1, h2⟩ := ih s k2 (un ++ [(c, sub)])
          refine ⟨h1, ?_⟩
          rw [h2, List.append_assoc]
          rfl

theorem backtrack_no_teachers (cfg : Config) (ρ : Rand) (h : cfg.teachers = []) :
    ∀ (slots : List (String × Nat × Nat)) (s : State) (k : Nat),
      (backtrack_solve cfg ρ slots s k).1 = true
      ∧ (backtrack_solve cfg ρ slots s k).2.1 = s := by
  intro slots
  induction slots with
  | nil => intro s k; exact ⟨rfl, rfl⟩
  | cons cdp rest ih =>
      intro s k
      obtain ⟨c, d, p⟩ := cdp
      simp only [backtrack_solve]
      by_cases hns : (get_priority_subjects_ranked cfg s c ρ k).1 = []
      · rw [if_pos hns]
        exact ih s _
      · rw [if_neg hns]
        rw [if_pos (available_ranked_nil cfg s d p ρ
          (get_priority_subjects_ranked cfg s c ρ k).2 h)]
        exact ih s _

theorem filledTriples_empty (cfg : Config) (s : State)
    (h : ∀ c d p, s.timetables c d p = none) : filledTriples cfg s = [] := by
  unfold filledTriples
  simp [h]

theorem resolve_noop (cfg : Config) (ρ : Rand) (s : State)
    (hft : filledTriples cfg s = []) :
    ∀ (pending live : List (String × String)) (k : Nat),
      resolve_unassigned_with_swapping cfg ρ pending live s k = (live, s, k) := by
  intro pending
  induction pending with
  | nil => intro live k; rfl
  | cons csub rest ih =>
      intro live k
      obtain ⟨c, sub⟩ := csub
      have hatt : ∀ (n k0 : Nat), resolveAttempts cfg ρ c sub n s k0 = (false, s, k0) := by
        intro n k0
        cases n with
        | zero => rfl
        | succ m =>
            simp only [resolveAttempts]
            rw [if_pos hft]
      have hstep : resolve_unassigned_with_swapping cfg ρ ((c, sub) :: rest) live s k
          = match resolveAttempts cfg ρ c sub 100 s k with
            | (true, s', k') =>
                resolve_unassigned_with_swapping cfg ρ rest (live.erase (c, sub)) s' k'
            | (false, s', k') =>
                resolve_unassigned_with_swapping cfg ρ rest live s' k' := rfl
      rw [hstep, hatt 100 k]
      exact ih live k

theorem greedy_no_teachers (cfg : Config) (ρ : Rand) (k : Nat) (h : cfg.teachers = []) :
    (generate_timetable_smart_greedy cfg ρ k).2.2.1 = reset_data_structures cfg
    ∧ ((generate_timetable_smart_greedy cfg ρ k).2.1).Perm (allRequiredAssignments cfg) := by
  set pr := processUnits cfg ρ (greedyOrder cfg ρ k).1
    (reset_data_structures cfg) (greedyOrder cfg ρ k).2 [] with hprdef
  have hpu := processUnits_no_teachers cfg ρ h (greedyOrder cfg ρ k).1
    (reset_data_structures cfg) (greedyOrder cfg ρ k).2 []
  rw [← hprdef] at hpu
  have hft : filledTriples cfg pr.1 = [] := by
    rw [hpu.1]
    exact filledTriples_empty cfg _ (fun c d p => rfl)
  have hrs := resolve_noop cfg ρ pr.1 hft pr.2.2 pr.2.2 pr.2.1
  constructor
  · show (resolve_unassigned_with_swapping cfg ρ pr.2.2 pr.2.2 pr.1 pr.2.1).2.1
      = reset_data_structures cfg
    rw [hrs]
    exact hpu.1
  · show ((resolve_unassigned_with_swapping cfg ρ pr.2.2 pr.2.2 pr.1 pr.2.1).1).Perm
      (allRequiredAssignments cfg)
    rw [hrs]
    show (pr.2.2).Perm (allRequiredAssignments cfg)
    rw [hpu.2, List.nil_append]
    exact sortDescPerturbed_perm _ 5 ρ k _

theorem genAttempts_no_teachers (cfg : Config) (ρ : Rand) (h : cfg.teachers = []) :
    ∀ (n k : Nat), (genAttempts cfg ρ n k).1 = true
      ∧ (genAttempts cfg ρ n k).2.1 = reset_data_structures cfg := by
  intro n
  induction n with
  | zero =>
      intro k
      exact ⟨(backtrack_no_teachers cfg ρ h _ _ _).1,
        (backtrack_no_teachers cfg ρ h _ _ _).2⟩
  | succ n ih =>
      intro k
      have hstep : genAttempts cfg ρ (n + 1) k
          = if (generate_timetable_smart_greedy cfg ρ k).1 = true
            then (true, (generate_timetable_smart_greedy cfg ρ k).2.2.1,
              (generate_timetable_smart_greedy cfg ρ k).2.2.2)
            else genAttempts cfg ρ n (generate_timetable_smart_greedy cfg ρ k).2.2.2 := rfl
      rw [hstep]
      by_cases hg : (generate_timetable_smart_greedy cfg ρ k).1 = true
      · rw [if_pos hg]
        exact ⟨rfl, (greedy_no_teachers cfg ρ k h).1⟩
      · rw [if_neg hg]
        exact ih _
/-- C1 counterexample: a complete run of the orchestration on the
zero-teacher configuration reports overall success (via the backtracking
fallback, which returns `True` after merely exhausting the slot list) while
the sole subject's fulfillment count is 0, not its quota 1. -/
theorem iterative_success_without_quotas :
    (generate_timetable_iterative cfgNoTeachers rhoZero 0).1 = true
    ∧ ¬ QuotasExact cfgNoTeachers (generate_timetable_iterative cfgNoTeachers rhoZero 0).2.1 := by
  constructor
  · decide
  · intro hq
    have := hq "A" (by decide) "S" (by decide)
    revert this
    decide

/-- C1 (amended): a run that reports success through the greedy phase —
where `validate_timetables` gates the returned flag — has every subject's
fulfillment count per classroom exactly equal to its quota; the
backtracking fallback performs no such re-check before reporting success. -/
theorem greedy_success_quotas_exact (cfg : Config) (ρ : Rand) (k : Nat)
    (h : (generate_timetable_smart_greedy cfg ρ k).1 = true) :
    QuotasExact cfg (generate_timetable_smart_greedy cfg ρ k).2.2.1 := by
  have hv : validate_timetables cfg (generate_timetable_smart_greedy cfg ρ k).2.2.1 = true := h
  simp only [validate_timetables, Bool.and_eq_true] at hv
  exact (validateQuotas_iff cfg _).mp hv.1.1.1

/-- Witness for C1 (amended): on the one-teacher configuration the greedy
phase succeeds, and quotas are then exactly met. -/
theorem greedy_success_quotas_exact_witness :
    (generate_timetable_smart_greedy cfgTiny rhoZero 0).1 = true
    ∧ QuotasExact cfgTiny (generate_timetable_smart_greedy cfgTiny rhoZero 0).2.2.1 :=
  ⟨by decide, greedy_success_quotas_exact cfgTiny rhoZero 0 (by decide)⟩

/-- C9 counterexample: with zero teachers the orchestration terminates and
reports overall SUCCESS (`True`), not the failure the specification
requires: the backtracking fallback returns `True` after exhausting the
slot list without a single assignment. -/
theorem zero_teachers_reports_success :
    cfgNoTeachers.teachers = []
    ∧ (generate_timetable_iterative cfgNoTeachers rhoZero 0).1 = true :=
  ⟨rfl, (genAttempts_no_teachers cfgNoTeachers rhoZero rfl 5 0).1⟩

/-- C9 (amended): with an empty teacher list, a complete run of the
orchestration terminates with every `(classroom, day, period)` cell empty
and every demand unit reported unresolved by the greedy phase — but it
reports overall success (`True`), not failure. -/
theorem zero_teachers_run (cfg : Config) (ρ : Rand) (k : Nat) (h : cfg.teachers = []) :
    (generate_timetable_iterative cfg ρ k).1 = true
    ∧ (∀ c d p, (generate_timetable_iterative cfg ρ k).2.1.timetables c d p = none)
    ∧ ((generate_timetable_smart_greedy cfg ρ k).2.1).Perm (allRequiredAssignments cfg) := by
  have hg := genAttempts_no_teachers cfg ρ h 5 k
  refine ⟨hg.1, ?_, (greedy_no_teachers cfg ρ k h).2⟩
  intro c d p
  show (genAttempts cfg ρ 5 k).2.1.timetables c d p = none
  rw [hg.2]
  rfl

/-- Witness for C9 (amended): the zero-teacher scenario concretely yields a
reported success, a fully empty grid, and the full unresolved-demand list. -/
theorem zero_teachers_run_witness :
    cfgNoTeachers.teachers = []
    ∧ ((generate_timetable_iterative cfgNoTeachers rhoZero 0).1 = true
      ∧ (∀ c d p,
          (generate_timetable_iterative cfgNoTeachers rhoZero 0).2.1.timetables c d p = none)
      ∧ ((generate_timetable_smart_greedy cfgNoTeachers rhoZero 0).2.1).Perm
          (allRequiredAssignments cfgNoTeachers)) :=
  ⟨rfl, zero_teachers_run cfgNoTeachers rhoZero 0 rfl⟩
